import Mathlib

/-!
# Crosswalk application store: key-path persistence engine

A shallow embedding of `DBStoreSqliteImpl` (`application/common/db_store_sqlite_impl.cc`),
of the cache layers `ApplicationStore` / `ApplicationStorage`
(`application/browser/application_store.cc`, `application_storage.cc`) and of
`Package::Extract` (`application/browser/installer/package.cc`).

Conventions of the embedding:

* a `base::Value*` argument is an `Option Value` (`none` is the null pointer);
* a `double` is carried as a rational number: the store never computes on install times,
  it only converts an integer value to a double (`GetDouble`) and copies it;
* the content of the SQLite file is a pair of row lists (`Tables`);
* the SQL statements of `db_store_constants.h`, the JSON serializer and the outcome of
  file-system calls are not part of the sources; they are parameters (`Sql`, `Json`,
  `InitEnv`), so that every path of the C++ code, failures included, is present;
* observer callbacks are recorded in a call log.
-/

namespace xwalk.application

/-! ## base::Value -/

/-- The value tree of `base::Value`; a dictionary is kept as a key-sorted association list,
like the `std::map` behind `base::DictionaryValue`. -/
inductive Value where
  | null
  | bool (b : Bool)
  | int (i : Int)
  | double (d : Rat)
  | string (s : String)
  | list (l : List Value)
  | dict (d : List (String × Value))

/-- Lexicographic order on character lists by code point (`std::string::compare`). -/
def ltChars : List Char → List Char → Bool
  | [], [] => false
  | [], _ :: _ => true
  | _ :: _, [] => false
  | a :: as, b :: bs =>
    if a.toNat < b.toNat then true
    else if a.toNat = b.toNat then ltChars as bs
    else false

/-- Key order of `std::map<std::string, Value*>`. -/
def keyLt (a b : String) : Bool := ltChars a.data b.data

/-- `DictionaryValue::GetWithoutPathExpansion`. -/
def GetWithoutPathExpansion : List (String × Value) → String → Option Value
  | [], _ => none
  | (k, v) :: rest, key => if key = k then some v else GetWithoutPathExpansion rest key

/-- `DictionaryValue::SetWithoutPathExpansion`: replaces the entry of `key` or inserts it at
its place in key order. -/
def SetWithoutPathExpansion : List (String × Value) → String → Value → List (String × Value)
  | [], key, v => [(key, v)]
  | (k, w) :: rest, key, v =>
    if key = k then (key, v) :: rest
    else if keyLt key k then (key, v) :: (k, w) :: rest
    else (k, w) :: SetWithoutPathExpansion rest key v

/-- The pieces of a character list between occurrences of the separator (always at least
one piece). -/
def rawSplit (sep : Char) : List Char → List (List Char)
  | [] => [[]]
  | c :: cs =>
    if c = sep then [] :: rawSplit sep cs
    else
      match rawSplit sep cs with
      | [] => [[c]]
      | p :: ps => (c :: p) :: ps

/-- The segments of a dictionary path: `DictionaryValue::Get` / `Set` cut the path at every
`'.'` (no trimming). -/
def pathSegments (path : String) : List String :=
  (rawSplit '.' path.data).map String.mk

/-- The loop of `DictionaryValue::Get` over the path segments. -/
def getSegments : List (String × Value) → List String → Option Value
  | _, [] => none
  | d, [k] => GetWithoutPathExpansion d k
  | d, k :: k2 :: ks =>
    match GetWithoutPathExpansion d k with
    | some (Value.dict child) => getSegments child (k2 :: ks)
    | _ => none

/-- The loop of `DictionaryValue::Set` over the path segments: a missing (or non-dictionary)
intermediate entry is replaced by a new dictionary. -/
def setSegments : List (String × Value) → List String → Value → List (String × Value)
  | d, [], _ => d
  | d, [k], v => SetWithoutPathExpansion d k v
  | d, k :: k2 :: ks, v =>
    let child :=
      match GetWithoutPathExpansion d k with
      | some (Value.dict c) => c
      | _ => []
    SetWithoutPathExpansion d k (Value.dict (setSegments child (k2 :: ks) v))

/-- `DictionaryValue::Get(path, &out)`; on a value that is no dictionary nothing is found. -/
def Value.Get : Value → String → Option Value
  | Value.dict d, path => getSegments d (pathSegments path)
  | _, _ => none

/-- `DictionaryValue::GetString(path, &out)`: the entry must be a string value. -/
def Value.GetString (v : Value) (path : String) : Option String :=
  match v.Get path with
  | some (Value.string s) => some s
  | _ => none

/-- `DictionaryValue::GetDouble(path, &out)`: `Value::GetAsDouble` accepts a double and
converts an integer. -/
def Value.GetDouble (v : Value) (path : String) : Option Rat :=
  match v.Get path with
  | some (Value.double d) => some d
  | some (Value.int i) => some (i : Rat)
  | _ => none

/-- `DictionaryValue::Set(path, value)` on the entries of a dictionary. -/
def DictSet (d : List (String × Value)) (path : String) (v : Value) : List (String × Value) :=
  setSegments d (pathSegments path) v

/-- The entries a `DictionaryValue::Iterator` visits, in key order. -/
def Value.entries : Value → List (String × Value)
  | Value.dict d => d
  | _ => []

/-- The items of a `ListValue`. -/
def Value.items : Value → List Value
  | Value.list l => l
  | _ => []

/-! ## base string utilities -/

/-- Membership in `kWhitespaceASCII` (tab, line feed, vertical tab, form feed, carriage
return, space). -/
def isWhitespaceASCII (c : Char) : Bool :=
  c.toNat = 0x20 || (0x09 ≤ c.toNat && c.toNat ≤ 0x0D)

/-- `TrimWhitespace(input, TRIM_ALL, &output)` on characters. -/
def TrimWhitespace (cs : List Char) : List Char :=
  ((cs.dropWhile isWhitespaceASCII).reverse.dropWhile isWhitespaceASCII).reverse

/-- `base::SplitString(str, c, &r)`: cuts at every separator, trims the ASCII whitespace
around each piece, and yields no piece at all for an input that is empty or all whitespace
(a lone empty last piece is not pushed). -/
def SplitString (str : String) (c : Char) : List String :=
  match (rawSplit c str.data).map (fun p => String.mk (TrimWhitespace p)) with
  | [p] => if p = "" then [] else [p]
  | ps => ps

/-- `JoinString(parts, sep)`. -/
def JoinString : List String → Char → String
  | [], _ => ""
  | [p], _ => p
  | p :: q :: ps, sep => p ++ String.singleton sep ++ JoinString (q :: ps) sep

/-! ## Constants of the sources -/

/-- `ApplicationStore::kManifestPath`. -/
def kManifestPath : String := "manifest"

/-- `ApplicationStore::kApplicationPath`. -/
def kApplicationPath : String := "path"

/-- `ApplicationStore::kInstallTime`. -/
def kInstallTime : String := "install_time"

/-- `ApplicationStore::kRegisteredEvents`. -/
def kRegisteredEvents : String := "registered_events"

/-- `kEventSeparator`. -/
def kEventSeparator : Char := ';'

/-- `FormatKeys`: the key split at `'.'`. -/
def FormatKeys (key : String) : List String := SplitString key '.'

/-! ## The relational store -/

/-- A row of the applications table, in the column order the queries read:
id, manifest text, path, install time. -/
structure AppRow where
  id : String
  manifest : String
  path : String
  install_time : Rat

/-- A row of the events table: id and the joined event names. -/
structure EventRow where
  id : String
  events : String

/-- The content of the SQLite database: the two tables. -/
structure Tables where
  applications : List AppRow
  events : List EventRow

/-- The part of `xwalk::db_store_constants` and of the SQL engine the store relies on
(`db_store_constants.h` is not among the sources). A statement is given by what running it
does once its parameters are bound, in the order of the bind indices: a writing statement
yields the new tables, `none` when the statement is not valid or `Run` fails; a reading
statement yields the rows `Step` walks through, `none` when it is not valid. `Begin` and
`Commit` are the outcome of `sql::Transaction::Begin` / `Commit`; when a writing function
leaves before a successful `Commit` the transaction is rolled back and the tables are the
ones it started from. -/
structure Sql where
  kEventsName : String
  Begin : Tables → Bool
  Commit : Tables → Bool
  kSetApplicationWithBindOp : String → String → Rat → String → Tables → Option Tables
  kUpdateApplicationWithBindOp : String → String → Rat → String → Tables → Option Tables
  kDeleteApplicationWithBindOp : String → Tables → Option Tables
  kGetApplicationWithBindOp : String → Tables → Option (List AppRow)
  kGetInstalledApplicationsOp : Tables → Option (List AppRow)
  kInsertEventsWithBindOp : String → String → Tables → Option Tables
  kUpdateEventsWithBindOp : String → String → Tables → Option Tables
  kDeleteEventsWithBindOp : String → Tables → Option Tables
  kGetEventsWithBindOp : String → Tables → Option (List String)

/-- `JSONStringValueSerializer` / `JSONFileValueSerializer` (base library): `none` is a
failed `Serialize`, respectively a null result of `Deserialize`. -/
structure Json where
  Serialize : Value → Option String
  Deserialize : String → Option Value

/-- The body every writing function shares after its arguments are prepared:
`transaction.Begin()`, the bound statement, `transaction.Commit()`. -/
def runInTransaction (sql : Sql) (t : Tables) (stmt : Tables → Option Tables) : Bool × Tables :=
  if sql.Begin t then
    match stmt t with
    | none => (false, t)
    | some t2 => if sql.Commit t2 then (true, t2) else (false, t)
  else (false, t)

/-- `DBStoreSqliteImpl::InsertApplication`. -/
def InsertApplication (sql : Sql) (json : Json) (t : Tables) (id : String)
    (value : Option Value) : Bool × Tables :=
  match value with
  | none => (false, t)
  | some value =>
    match (value.Get kManifestPath).bind json.Serialize with
    | none => (false, t)
    | some manifest =>
      match value.GetString kApplicationPath with
      | none => (false, t)
      | some path =>
        match value.GetDouble kInstallTime with
        | none => (false, t)
        | some install_time =>
          runInTransaction sql t (sql.kSetApplicationWithBindOp manifest path install_time id)

/-- `DBStoreSqliteImpl::UpdateApplication`. -/
def UpdateApplication (sql : Sql) (json : Json) (t : Tables) (id : String)
    (value : Option Value) : Bool × Tables :=
  match value with
  | none => (false, t)
  | some value =>
    match (value.Get kManifestPath).bind json.Serialize with
    | none => (false, t)
    | some manifest =>
      match value.GetString kApplicationPath with
      | none => (false, t)
      | some path =>
        match value.GetDouble kInstallTime with
        | none => (false, t)
        | some install_time =>
          runInTransaction sql t (sql.kUpdateApplicationWithBindOp manifest path install_time id)

/-- `DBStoreSqliteImpl::DeleteApplication`. -/
def DeleteApplication (sql : Sql) (t : Tables) (id : String) : Bool × Tables :=
  runInTransaction sql t (sql.kDeleteApplicationWithBindOp id)

/-- The dictionary `QueryApplication` and `QueryInstalledApplications` build from one row;
`none` when the manifest text does not deserialize. -/
def rowValue (json : Json) (r : AppRow) : Option Value :=
  match json.Deserialize r.manifest with
  | none => none
  | some manifest =>
    some (Value.dict
      (DictSet
        (DictSet (DictSet [] kManifestPath manifest) kApplicationPath (Value.string r.path))
        kInstallTime (Value.double r.install_time)))

/-- The `while (smt.Step())` loop of `QueryApplication`; the second argument is `value`. -/
def queryApplicationLoop (json : Json) : List AppRow → Option Value → Option Value
  | [], value => value
  | r :: rs, _ =>
    match rowValue json r with
    | none => none
    | some v => queryApplicationLoop json rs (some v)

/-- `DBStoreSqliteImpl::QueryApplication`. -/
def QueryApplication (sql : Sql) (json : Json) (t : Tables) (id : String) : Option Value :=
  match sql.kGetApplicationWithBindOp id t with
  | none => none
  | some rows => queryApplicationLoop json rows none

/-- The `while (smt.Step())` loop of `QueryInstalledApplications`; the second argument is
the dictionary built so far. -/
def queryInstalledLoop (json : Json) : List AppRow → List (String × Value) → Option Value
  | [], value => some (Value.dict value)
  | r :: rs, value =>
    match rowValue json r with
    | none => none
    | some app_value => queryInstalledLoop json rs (DictSet value r.id app_value)

/-- `DBStoreSqliteImpl::QueryInstalledApplications`. -/
def QueryInstalledApplications (sql : Sql) (json : Json) (t : Tables) : Option Value :=
  match sql.kGetInstalledApplicationsOp t with
  | none => none
  | some rows => queryInstalledLoop json rows []

/-- The loop over the list value in `InsertEventsValue` / `UpdateEventsValue`: the items
that are strings, in order. -/
def eventsVec : List Value → List String
  | [] => []
  | Value.string event :: rest => event :: eventsVec rest
  | _ :: rest => eventsVec rest

/-- `DBStoreSqliteImpl::InsertEventsValue`. -/
def InsertEventsValue (sql : Sql) (t : Tables) (id : String) (value : Option Value) :
    Bool × Tables :=
  match value with
  | none => (false, t)
  | some events =>
    runInTransaction sql t
      (sql.kInsertEventsWithBindOp (JoinString (eventsVec events.items) kEventSeparator) id)

/-- `DBStoreSqliteImpl::UpdateEventsValue`. -/
def UpdateEventsValue (sql : Sql) (t : Tables) (id : String) (value : Option Value) :
    Bool × Tables :=
  match value with
  | none => (false, t)
  | some events =>
    runInTransaction sql t
      (sql.kUpdateEventsWithBindOp (JoinString (eventsVec events.items) kEventSeparator) id)

/-- `DBStoreSqliteImpl::DeleteEventsValue`. -/
def DeleteEventsValue (sql : Sql) (t : Tables) (id : String) : Bool × Tables :=
  runInTransaction sql t (sql.kDeleteEventsWithBindOp id)

/-- The `while (smt.Step())` loop of `QueryEventsValue`; the second argument is `value`. -/
def queryEventsLoop : List String → Option Value → Option Value
  | [], value => value
  | col :: rest, _ =>
    queryEventsLoop rest
      (some (Value.list ((SplitString col kEventSeparator).map Value.string)))

/-- `DBStoreSqliteImpl::QueryEventsValue`. -/
def QueryEventsValue (sql : Sql) (t : Tables) (id : String) : Option Value :=
  match sql.kGetEventsWithBindOp id t with
  | none => none
  | some rows => queryEventsLoop rows none

/-! ## The store object -/

/-- A call an observer of the store receives (`DBStore::Observer`); an observer is named by
a number. -/
inductive Call where
  | OnDBValueChanged (observer : Nat) (key : String) (value : Option Value)
  | OnDBInitializationCompleted (observer : Nat) (succeeded : Bool)

/-- The state of a `DBStoreSqliteImpl` together with the data directory it works on:
whether `applications.db` exists and the tables it holds, the text of the legacy file
`applications_db` when that file exists, whether `sqlite_db_` still holds a connection,
`db_initialized_`, the registered observers and the calls they have received.
`v0_reads` counts the calls of `UpgradeToVersion1`, each of which reads the legacy file. -/
structure DBStoreSqliteImpl where
  db_file : Bool
  tables : Tables
  v0_file : Option String
  v0_reads : Nat
  sqlite_db : Bool
  db_initialized : Bool
  observers : List Nat
  calls : List Call

/-- The constructor on a data directory: a connection object, `db_initialized_(false)`, no
observer. -/
def DBStoreSqliteImpl.create (db_file : Bool) (tables : Tables) (v0_file : Option String) :
    DBStoreSqliteImpl :=
  { db_file := db_file, tables := tables, v0_file := v0_file, v0_reads := 0, sqlite_db := true,
    db_initialized := false, observers := [], calls := [] }

/-- `DBStore::AddObserver`. -/
def DBStoreSqliteImpl.AddObserver (s : DBStoreSqliteImpl) (observer : Nat) : DBStoreSqliteImpl :=
  { s with observers := s.observers ++ [observer] }

/-- `DBStoreSqliteImpl::ReportValueChanged`: `FOR_EACH_OBSERVER` over `observers_`. -/
def ReportValueChanged (s : DBStoreSqliteImpl) (key : String) (value : Option Value) :
    DBStoreSqliteImpl :=
  { s with calls := s.calls ++ s.observers.map (fun o => Call.OnDBValueChanged o key value) }

/-- The end of `Insert`, `Update` and `Delete`: the tables the writing function left, and
`if (ret) ReportValueChanged(key, value)`. -/
def finishWrite (s : DBStoreSqliteImpl) (key : String) (value : Option Value)
    (r : Bool × Tables) : Bool × DBStoreSqliteImpl :=
  if r.1 then (true, ReportValueChanged { s with tables := r.2 } key value)
  else (false, { s with tables := r.2 })

/-- `DBStoreSqliteImpl::Insert`. -/
def Insert (sql : Sql) (json : Json) (s : DBStoreSqliteImpl) (key : String)
    (value : Option Value) : Bool × DBStoreSqliteImpl :=
  if s.db_initialized then
    match FormatKeys key with
    | [] => (false, s)
    | [application_id] =>
      finishWrite s key value (InsertApplication sql json s.tables application_id value)
    | [_, k1] =>
      if k1 = sql.kEventsName then
        finishWrite s key value (InsertEventsValue sql s.tables key value)
      else finishWrite s key value (false, s.tables)
    | _ => finishWrite s key value (false, s.tables)
  else (false, s)

/-- `DBStoreSqliteImpl::Update`. -/
def Update (sql : Sql) (json : Json) (s : DBStoreSqliteImpl) (key : String)
    (value : Option Value) : Bool × DBStoreSqliteImpl :=
  if s.db_initialized then
    match FormatKeys key with
    | [] => (false, s)
    | [application_id] =>
      finishWrite s key value (UpdateApplication sql json s.tables application_id value)
    | [_, k1] =>
      if k1 = sql.kEventsName then
        finishWrite s key value (UpdateEventsValue sql s.tables key value)
      else finishWrite s key value (false, s.tables)
    | _ => finishWrite s key value (false, s.tables)
  else (false, s)

/-- `DBStoreSqliteImpl::Delete`. -/
def Delete (sql : Sql) (s : DBStoreSqliteImpl) (key : String) : Bool × DBStoreSqliteImpl :=
  if s.db_initialized then
    match FormatKeys key with
    | [] => (false, s)
    | [application_id] =>
      finishWrite s key none (DeleteApplication sql s.tables application_id)
    | _ => finishWrite s key none (false, s.tables)
  else (false, s)

/-- `DBStoreSqliteImpl::Query`: the value returned (`none` is `NULL`) and the state of the
store after the call. -/
def Query (sql : Sql) (json : Json) (s : DBStoreSqliteImpl) (key : String) :
    Option Value × DBStoreSqliteImpl :=
  if s.db_initialized then
    match FormatKeys key with
    | [] => (QueryInstalledApplications sql json s.tables, s)
    | [k0] => (QueryApplication sql json s.tables k0, s)
    | [k0, k1] =>
      if k1 = sql.kEventsName then (QueryEventsValue sql s.tables k0, s) else (none, s)
    | _ => (none, s)
  else (none, s)

/-! ## Initialisation and migration -/

/-- An empty database. -/
def emptyTables : Tables := { applications := [], events := [] }

/-- The outcome of the calls `InitDB` makes outside the store: `sqlite_db_->Open`,
`meta_table_.Init` together with the version check, `InitTables`, `base::DeleteFile` of the
legacy file, and the `PRAGMA foreign_keys=ON` statement. -/
structure InitEnv where
  Open : Bool
  MetaTable : Bool
  InitTables : Bool
  DeleteFile : Bool
  ForeignKeys : Bool

/-- The loop of `UpgradeToVersion1` over the entries of the legacy dictionary: each entry is
inserted with `InsertApplication`; the first failure ends the loop. -/
def upgradeLoop (sql : Sql) (json : Json) : List (String × Value) → Tables → Bool × Tables
  | [], t => (true, t)
  | (key, value) :: rest, t =>
    match InsertApplication sql json t key (some value) with
    | (true, t2) => upgradeLoop sql json rest t2
    | (false, t2) => (false, t2)

/-- `DBStoreSqliteImpl::UpgradeToVersion1` on the text of the legacy file. -/
def UpgradeToVersion1 (sql : Sql) (json : Json) (t : Tables) (v0_text : String) :
    Bool × Tables :=
  match json.Deserialize v0_text with
  | none => (false, t)
  | some old_db => upgradeLoop sql json old_db.entries t

/-- The end of `InitDB`: the foreign-key pragma, `db_initialized_ = true`, and
`OnDBInitializationCompleted(true)` for each observer. -/
def initFinish (env : InitEnv) (s : DBStoreSqliteImpl) : Bool × DBStoreSqliteImpl :=
  if env.ForeignKeys then
    (true, { s with
      db_initialized := true
      calls := s.calls ++ s.observers.map (fun o => Call.OnDBInitializationCompleted o true) })
  else (false, s)

/-- `DBStoreSqliteImpl::InitDB`. Opening a database file that does not exist creates an
empty one. -/
def InitDB (sql : Sql) (json : Json) (env : InitEnv) (s : DBStoreSqliteImpl) :
    Bool × DBStoreSqliteImpl :=
  let does_db_exist := s.db_file
  if env.Open then
    let s1 : DBStoreSqliteImpl :=
      if does_db_exist then s
      else { s with db_file := true, tables := emptyTables }
    if env.MetaTable then
      if env.InitTables then
        match s1.v0_file with
        | some v0_text =>
          if does_db_exist then initFinish env s1
          else
            match UpgradeToVersion1 sql json s1.tables v0_text with
            | (false, t2) => (false, { s1 with tables := t2, v0_reads := s1.v0_reads + 1 })
            | (true, t2) =>
              if env.DeleteFile then
                initFinish env
                  { s1 with tables := t2, v0_reads := s1.v0_reads + 1, v0_file := none }
              else (false, { s1 with tables := t2, v0_reads := s1.v0_reads + 1 })
        | none => initFinish env s1
      else (false, { s1 with sqlite_db := false })
    else (false, s1)
  else (false, { s with sqlite_db := false })

/-! ## The statements, from the specification -/

/-- The rows of the applications table other than the one of `id`. -/
def withoutApp (id : String) (rows : List AppRow) : List AppRow :=
  rows.filter (fun r => decide (r.id ≠ id))

/-- The rows of the events table other than the one of `id`. -/
def withoutEvents (id : String) (rows : List EventRow) : List EventRow :=
  rows.filter (fun r => decide (r.id ≠ id))

/-- Whether the applications table has a row of `id`. -/
def hasApp (id : String) (rows : List AppRow) : Bool :=
  rows.any (fun r => decide (r.id = id))

/-- Modelled from the spec: the statements of `db_store_constants` and the engine that runs
them, which are not among the sources. Insert of an application writes a new row and fails
when the id already exists; update requires the row to exist and overwrites all its
columns; delete removes the row and fails when it is absent; the queries return the row of
an id, respectively every row. Insert and update of events are the same upsert of the row
keyed by the bound id; the events query returns the event text of the bound id. Deleting an
application does not delete its events row (no cascade). The reserved events literal is
`events`; transactions begin and commit. -/
def specSql : Sql where
  kEventsName := "events"
  Begin := fun _ => true
  Commit := fun _ => true
  kSetApplicationWithBindOp := fun manifest path install_time id t =>
    if hasApp id t.applications then none
    else some { t with applications := t.applications ++
      [{ id := id, manifest := manifest, path := path, install_time := install_time }] }
  kUpdateApplicationWithBindOp := fun manifest path install_time id t =>
    if hasApp id t.applications then
      some { t with applications := t.applications.map (fun r =>
        if r.id = id then
          { id := id, manifest := manifest, path := path, install_time := install_time }
        else r) }
    else none
  kDeleteApplicationWithBindOp := fun id t =>
    if hasApp id t.applications then
      some { t with applications := withoutApp id t.applications }
    else none
  kGetApplicationWithBindOp := fun id t =>
    some (t.applications.filter (fun r => decide (r.id = id)))
  kGetInstalledApplicationsOp := fun t => some t.applications
  kInsertEventsWithBindOp := fun events id t =>
    some { t with events := withoutEvents id t.events ++ [{ id := id, events := events }] }
  kUpdateEventsWithBindOp := fun events id t =>
    some { t with events := withoutEvents id t.events ++ [{ id := id, events := events }] }
  kDeleteEventsWithBindOp := fun id t =>
    some { t with events := withoutEvents id t.events }
  kGetEventsWithBindOp := fun id t =>
    some ((t.events.filter (fun r => decide (r.id = id))).map (fun r => r.events))

/-- The statements of `specSql` on a connection whose transactions cannot begin (a locked
or failing database file). -/
def lockedSql : Sql := { specSql with Begin := fun _ => false }

/-- The record value of an application as the unit tests build it and as the legacy
document holds it: an install time, a manifest and a path. -/
def record (manifest : Value) (path : String) (install_time : Rat) : Value :=
  Value.dict
    [(kInstallTime, Value.double install_time), (kManifestPath, manifest),
      (kApplicationPath, Value.string path)]

/-- A serializer standing for the JSON library on the two manifests of the unit tests,
`a: b` and `a: c`, and on two legacy documents: the one of the unit test `DBUpgradeToV1`
(id `test_id`, manifest `a: b`, path `path`, install time 0) and the same document under
the id `a.b`. -/
def testJson : Json where
  Serialize := fun v =>
    match v with
    | Value.dict [(k, Value.string x)] =>
      if k = "a" ∧ x = "b" then some "a:b"
      else if k = "a" ∧ x = "c" then some "a:c"
      else none
    | _ => none
  Deserialize := fun text =>
    if text = "a:b" then some (Value.dict [("a", Value.string "b")])
    else if text = "a:c" then some (Value.dict [("a", Value.string "c")])
    else if text = "test_id: (a:b, path, 0.0)" then
      some (Value.dict [("test_id", record (Value.dict [("a", Value.string "b")]) "path" 0)])
    else if text = "a.b: (a:b, path, 0.0)" then
      some (Value.dict [("a.b", record (Value.dict [("a", Value.string "b")]) "path" 0)])
    else none

/-- The environment in which every outside call of `InitDB` succeeds. -/
def okEnv : InitEnv :=
  { Open := true, MetaTable := true, InitTables := true, DeleteFile := true,
    ForeignKeys := true }

/-! ## The cache layers -/

/-- What the cache layers use of an `Application`: its id, its manifest value and its
path. -/
structure Application where
  ID : String
  manifest : Value
  path : String

/-- `ApplicationMap::find`. -/
def mapFind {α : Type} : List (String × α) → String → Option α
  | [], _ => none
  | (k, a) :: rest, id => if id = k then some a else mapFind rest id

/-- `ApplicationMap::erase`. -/
def mapErase {α : Type} : List (String × α) → String → List (String × α)
  | [], _ => []
  | (k, a) :: rest, id => if id = k then rest else (k, a) :: mapErase rest id

/-- Assignment through an iterator, `it->second = application`. -/
def mapAssign {α : Type} : List (String × α) → String → α → List (String × α)
  | [], _, _ => []
  | (k, a) :: rest, id, b => if id = k then (k, b) :: rest else (k, a) :: mapAssign rest id b

/-- `ApplicationStore`: the store it owns and the map `applications_`. -/
structure ApplicationStore where
  db_store : DBStoreSqliteImpl
  applications : List (String × Application)

/-- The value `AddApplication` and `UpdateApplication` of `ApplicationStore` build for the
store; `now` is `base::Time::Now().ToDoubleT()`. -/
def applicationValue (application : Application) (now : Rat) : Value :=
  Value.dict
    (DictSet
      (DictSet (DictSet [] kManifestPath application.manifest) kApplicationPath
        (Value.string application.path))
      kInstallTime (Value.double now))

/-- `ApplicationStore::RemoveApplication`. -/
def ApplicationStore.RemoveApplication (sql : Sql) (st : ApplicationStore) (id : String) :
    Bool × ApplicationStore :=
  match mapFind st.applications id with
  | none => (false, st)
  | some _ =>
    let applications := mapErase st.applications id
    match Delete sql st.db_store id with
    | (false, db) => (false, { db_store := db, applications := applications })
    | (true, db) => (true, { db_store := db, applications := applications })

/-- `ApplicationStore::UpdateApplication`. -/
def ApplicationStore.UpdateApplication (sql : Sql) (json : Json) (now : Rat)
    (st : ApplicationStore) (application : Application) : Bool × ApplicationStore :=
  match mapFind st.applications application.ID with
  | none => (false, st)
  | some _ =>
    match Update sql json st.db_store application.ID
        (some (applicationValue application now)) with
    | (true, db) =>
      (true, { db_store := db,
               applications := mapAssign st.applications application.ID application })
    | (false, db) => (false, { db_store := db, applications := st.applications })

/-- What `ApplicationStorage` uses of an `ApplicationData`: its id and its events. -/
structure ApplicationData where
  ID : String
  events : List String

/-- The backend `ApplicationStorageImpl` (only its header is among the sources): each
operation is taken by the result it returns. -/
structure ApplicationStorageImpl where
  AddApplication : ApplicationData → Bool
  RemoveApplication : String → Bool
  UpdateApplication : ApplicationData → Bool
  DeleteEvents : String → Bool
  UpdateEvents : String → List String → Bool

/-- A call an observer of `ApplicationStorage` receives. -/
inductive StorageCall where
  | ApplicationAdded (observer : Nat) (application : ApplicationData)
  | ApplicationRemoved (observer : Nat) (id : String)
  | ApplicationUpdated (observer : Nat) (application : ApplicationData)

/-- `ApplicationStorage`: the map `applications_`, the observers and the calls they have
received. -/
structure ApplicationStorage where
  applications : List (String × ApplicationData)
  observers : List Nat
  calls : List StorageCall

/-- `ApplicationStorage::RemoveApplication`. -/
def ApplicationStorage.RemoveApplication (impl : ApplicationStorageImpl)
    (st : ApplicationStorage) (id : String) : Bool × ApplicationStorage :=
  match mapFind st.applications id with
  | none => (false, st)
  | some _ =>
    let st1 := { st with applications := mapErase st.applications id }
    if impl.RemoveApplication id then
      (true, { st1 with
        calls := st1.calls ++ st1.observers.map (fun o => StorageCall.ApplicationRemoved o id) })
    else (false, st1)

/-- `ApplicationStorage::UpdateApplication`. -/
def ApplicationStorage.UpdateApplication (impl : ApplicationStorageImpl)
    (st : ApplicationStorage) (application : ApplicationData) : Bool × ApplicationStorage :=
  match mapFind st.applications application.ID with
  | none => (false, st)
  | some _ =>
    let st1 :=
      { st with applications := mapAssign st.applications application.ID application }
    if impl.UpdateApplication application then
      (true, { st1 with
        calls := st1.calls ++
          st1.observers.map (fun o => StorageCall.ApplicationUpdated o application) })
    else (false, st1)

/-! ## Package extraction -/

/-- `Package::PackageType`. -/
inductive PackageType where
  | TYPE_UNKNOWN
  | TYPE_XPK
  | TYPE_WGT
  deriving DecidableEq

/-- The members of `Package` that `Extract` uses; `temp_dir` is `temp_dir_.path()`, empty
while the `ScopedTempDir` owns no directory. `creations` and `unzips` count the calls of
`CreateTempDirectory` and of `zip::Unzip` made so far. -/
structure Package where
  source_path : String
  is_extracted : Bool
  is_valid : Bool
  package_type : PackageType
  temp_dir : String
  creations : Nat
  unzips : Nat

/-- The outside of one `Extract` call: the directory `PathService::Get(base::DIR_TEMP)`
gives, the directory a creation under it would yield (`none` when it fails), and the
outcome of `zip::Unzip`. -/
structure ExtractEnv where
  tmp : String
  unique_dir : Option String
  Unzip : Bool

/-- The constructor `Package::Package(source_path)`. -/
def Package.create (source_path : String) : Package :=
  { source_path := source_path, is_extracted := false, is_valid := false,
    package_type := PackageType.TYPE_UNKNOWN, temp_dir := "", creations := 0, unzips := 0 }

/-- `Package::CreateTempDirectory`; `ScopedTempDir::CreateUniqueTempDirUnderPath` refuses
when it already owns a directory. -/
def Package.CreateTempDirectory (env : ExtractEnv) (p : Package) : Bool × Package :=
  let p1 := { p with creations := p.creations + 1 }
  if env.tmp = "" then (false, p1)
  else if p1.temp_dir ≠ "" then (false, p1)
  else
    match env.unique_dir with
    | none => (false, p1)
    | some d => (true, { p1 with temp_dir := d })

/-- `Package::Extract`: the returned flag, the path written to `*target_path` (`none` when
nothing is written), and the package afterwards. -/
def Package.Extract (env : ExtractEnv) (p : Package) : (Bool × Option String) × Package :=
  if p.is_extracted then ((true, some p.temp_dir), p)
  else if p.package_type = PackageType.TYPE_XPK ∧ p.is_valid = false then ((false, none), p)
  else
    match p.CreateTempDirectory env with
    | (false, p1) => ((false, none), p1)
    | (true, p1) =>
      let p2 := { p1 with unzips := p1.unzips + 1 }
      if env.Unzip then ((true, some p2.temp_dir), { p2 with is_extracted := true })
      else ((false, none), p2)

/-- A sequence of `Extract` calls on one package: the results in order, and the package
after the last call. -/
def Package.ExtractAll : List ExtractEnv → Package → List (Bool × Option String) × Package
  | [], p => ([], p)
  | env :: rest, p =>
    let r := p.Extract env
    let rs := Package.ExtractAll rest r.2
    (r.1 :: rs.1, rs.2)

/-- A store initialised on an empty data directory. -/
def initStore : DBStoreSqliteImpl :=
  (InitDB specSql testJson okEnv (DBStoreSqliteImpl.create false emptyTables none)).2

/-- The record of the unit tests: manifest `a: b`, path `no path`, install time 0. -/
def testRecord : Value := record (Value.dict [("a", Value.string "b")]) "no path" 0

/-- The application the record `testRecord` belongs to. -/
def app1 : Application :=
  { ID := "app1", manifest := Value.dict [("a", Value.string "b")], path := "no path" }

/-- An initialised store that holds the record of `app1`. -/
def storeWithApp1 : DBStoreSqliteImpl := (Insert specSql testJson initStore "app1" (some testRecord)).2

/-- An `ApplicationStore` whose cache and store both hold `app1`. -/
def cacheWithApp1 : ApplicationStore :=
  { db_store := storeWithApp1, applications := [("app1", app1)] }

/-- An `ApplicationStorage` whose cache holds `app1` with no events. -/
def storageWithApp1 : ApplicationStorage :=
  { applications := [("app1", { ID := "app1", events := [] })], observers := [], calls := [] }

/-- A backend every operation of which fails. -/
def failingImpl : ApplicationStorageImpl :=
  { AddApplication := fun _ => false, RemoveApplication := fun _ => false,
    UpdateApplication := fun _ => false, DeleteEvents := fun _ => false,
    UpdateEvents := fun _ _ => false }

/-- A legacy document is well formed for the migration: its keys are in strict key order
(as in every dictionary), and every entry is a record whose manifest the serializer writes
to a text that it reads back to the same manifest. -/
def LegacyDocument (json : Json) (D : List (String × Value)) : Prop :=
  D.Pairwise (fun a b => keyLt a.1 b.1 = true) ∧
  ∀ e ∈ D, ∃ (m : Value) (p : String) (tm : Rat) (text : String),
    e.2 = record m p tm ∧ json.Serialize m = some text ∧ json.Deserialize text = some m

/-- The value the rows of the applications table leave under a key of the whole-collection
dictionary: the one built from the last row of that id, `cur` when there is none. -/
def lastValue (json : Json) : List AppRow → String → Option Value → Option Value
  | [], _, cur => cur
  | r :: rs, k, cur => lastValue json rs k (if k = r.id then rowValue json r else cur)

/-- The applications table holds rows as the key router writes them: no id contains a dot
and every manifest text deserializes. -/
def TablesOk (json : Json) (t : Tables) : Prop :=
  ∀ r ∈ t.applications, '.' ∉ r.id.data ∧ (json.Deserialize r.manifest).isSome = true

/-- A sequence of `Insert` calls, each with a key and a value, that stops at the first
failure: whether all succeeded, and the store afterwards. -/
def InsertAll (sql : Sql) (json : Json) :
    List (String × Value) → DBStoreSqliteImpl → Bool × DBStoreSqliteImpl
  | [], s => (true, s)
  | (key, value) :: rest, s =>
    match Insert sql json s key (some value) with
    | (true, s2) => InsertAll sql json rest s2
    | (false, s2) => (false, s2)

/-- `ApplicationStorage::GetApplicationByID`: the cached application, `none` for `NULL`. -/
def ApplicationStorage.GetApplicationByID (st : ApplicationStorage) (application_id : String) :
    Option ApplicationData :=
  mapFind st.applications application_id

/-- `ApplicationStorage::GetApplicationEvents`. -/
def ApplicationStorage.GetApplicationEvents (st : ApplicationStorage) (id : String) :
    List String :=
  match st.GetApplicationByID id with
  | none => []
  | some application => application.events

/-- The statements of `SetApplicationEvents` after its test, run on the pointer
`application`: `application->SetEvents(events)`, which changes the cached object and has no
result (`none`) on a null pointer, then `DeleteEvents` for an empty list and `UpdateEvents`
otherwise. -/
def setEventsThrough (impl : ApplicationStorageImpl) (st : ApplicationStorage) (id : String)
    (events : List String) (application : Option ApplicationData) :
    Option (Bool × ApplicationStorage) :=
  match application with
  | none => none
  | some a =>
    let st1 := { st with applications := mapAssign st.applications id { a with events := events } }
    if events.length = 0 then some (impl.DeleteEvents id, st1)
    else some (impl.UpdateEvents id events, st1)

/-- `ApplicationStorage::SetApplicationEvents`: `if (application)` returns false when the
application is found; the statements after it run only when it was not found, that is on a
null pointer. -/
def ApplicationStorage.SetApplicationEvents (impl : ApplicationStorageImpl)
    (st : ApplicationStorage) (id : String) (events : List String) :
    Option (Bool × ApplicationStorage) :=
  match st.GetApplicationByID id with
  | some _ => some (false, st)
  | none => setEventsThrough impl st id events none

/-- A backend every operation of which succeeds. -/
def succeedingImpl : ApplicationStorageImpl :=
  { AddApplication := fun _ => true, RemoveApplication := fun _ => true,
    UpdateApplication := fun _ => true, DeleteEvents := fun _ => true,
    UpdateEvents := fun _ _ => true }

/-- The test serializer extended with a legacy document of three entries, the second of
which has a manifest but neither path nor install time. -/
def partialJson : Json where
  Serialize := testJson.Serialize
  Deserialize := fun text =>
    if text = "app1: (a:b, path, 0.0), app2: (a:b), app3: (a:b, path, 0.0)" then
      some (Value.dict
        [("app1", record (Value.dict [("a", Value.string "b")]) "path" 0),
         ("app2", Value.dict [(kManifestPath, Value.dict [("a", Value.string "b")])]),
         ("app3", record (Value.dict [("a", Value.string "b")]) "path" 0)])
    else testJson.Deserialize text

/-- A store initialised on a directory whose legacy document holds the record of the unit
test `DBUpgradeToV1` under the id `a.b`: the migration has written the row `a.b`. -/
def migratedDotted : DBStoreSqliteImpl :=
  (InitDB specSql testJson okEnv
    (DBStoreSqliteImpl.create false emptyTables (some "a.b: (a:b, path, 0.0)"))).2

/-- The store `migratedDotted` after `Insert(a, testRecord)`: the rows `a.b` and `a`. -/
def migratedDottedWithA : DBStoreSqliteImpl :=
  (Insert specSql testJson migratedDotted "a" (some testRecord)).2

/-- A call a writing function makes on the connection: `transaction.Begin()`, the bound
statement (`GetCachedStatement` and `Run`), `transaction.Commit()`. -/
inductive SqlCall where
  | Begin
  | Statement
  | Commit
  deriving DecidableEq

/-- The body `runInTransaction` together with the calls it makes on the connection, in
order. -/
def runInTransactionTraced (sql : Sql) (t : Tables) (stmt : Tables → Option Tables) :
    (Bool × Tables) × List SqlCall :=
  if sql.Begin t then
    match stmt t with
    | none => ((false, t), [SqlCall.Begin, SqlCall.Statement])
    | some t2 =>
      if sql.Commit t2 then ((true, t2), [SqlCall.Begin, SqlCall.Statement, SqlCall.Commit])
      else ((false, t), [SqlCall.Begin, SqlCall.Statement, SqlCall.Commit])
  else ((false, t), [SqlCall.Begin])

/-- `DBStoreSqliteImpl::InsertApplication` together with the calls it makes on the
connection: none before the value has passed the four checks. -/
def InsertApplicationTraced (sql : Sql) (json : Json) (t : Tables) (id : String)
    (value : Option Value) : (Bool × Tables) × List SqlCall :=
  match value with
  | none => ((false, t), [])
  | some value =>
    match (value.Get kManifestPath).bind json.Serialize with
    | none => ((false, t), [])
    | some manifest =>
      match value.GetString kApplicationPath with
      | none => ((false, t), [])
      | some path =>
        match value.GetDouble kInstallTime with
        | none => ((false, t), [])
        | some install_time =>
          runInTransactionTraced sql t
            (sql.kSetApplicationWithBindOp manifest path install_time id)

/-- `DBStoreSqliteImpl::UpdateApplication` together with the calls it makes on the
connection. -/
def UpdateApplicationTraced (sql : Sql) (json : Json) (t : Tables) (id : String)
    (value : Option Value) : (Bool × Tables) × List SqlCall :=
  match value with
  | none => ((false, t), [])
  | some value =>
    match (value.Get kManifestPath).bind json.Serialize with
    | none => ((false, t), [])
    | some manifest =>
      match value.GetString kApplicationPath with
      | none => ((false, t), [])
      | some path =>
        match value.GetDouble kInstallTime with
        | none => ((false, t), [])
        | some install_time =>
          runInTransactionTraced sql t
            (sql.kUpdateApplicationWithBindOp manifest path install_time id)

/-- `DBStoreSqliteImpl::InsertEventsValue` together with the calls it makes on the
connection. -/
def InsertEventsValueTraced (sql : Sql) (t : Tables) (id : String) (value : Option Value) :
    (Bool × Tables) × List SqlCall :=
  match value with
  | none => ((false, t), [])
  | some events =>
    runInTransactionTraced sql t
      (sql.kInsertEventsWithBindOp (JoinString (eventsVec events.items) kEventSeparator) id)

/-- `DBStoreSqliteImpl::UpdateEventsValue` together with the calls it makes on the
connection. -/
def UpdateEventsValueTraced (sql : Sql) (t : Tables) (id : String) (value : Option Value) :
    (Bool × Tables) × List SqlCall :=
  match value with
  | none => ((false, t), [])
  | some events =>
    runInTransactionTraced sql t
      (sql.kUpdateEventsWithBindOp (JoinString (eventsVec events.items) kEventSeparator) id)

/-- `DBStoreSqliteImpl::Insert` together with the calls it makes on the connection. -/
def InsertTraced (sql : Sql) (json : Json) (s : DBStoreSqliteImpl) (key : String)
    (value : Option Value) : (Bool × DBStoreSqliteImpl) × List SqlCall :=
  if s.db_initialized then
    match FormatKeys key with
    | [] => ((false, s), [])
    | [application_id] =>
      (finishWrite s key value
          (InsertApplicationTraced sql json s.tables application_id value).1,
        (InsertApplicationTraced sql json s.tables application_id value).2)
    | [_, k1] =>
      if k1 = sql.kEventsName then
        (finishWrite s key value (InsertEventsValueTraced sql s.tables key value).1,
          (InsertEventsValueTraced sql s.tables key value).2)
      else (finishWrite s key value (false, s.tables), [])
    | _ => (finishWrite s key value (false, s.tables), [])
  else ((false, s), [])

/-- `DBStoreSqliteImpl::Update` together with the calls it makes on the connection. -/
def UpdateTraced (sql : Sql) (json : Json) (s : DBStoreSqliteImpl) (key : String)
    (value : Option Value) : (Bool × DBStoreSqliteImpl) × List SqlCall :=
  if s.db_initialized then
    match FormatKeys key with
    | [] => ((false, s), [])
    | [application_id] =>
      (finishWrite s key value
          (UpdateApplicationTraced sql json s.tables application_id value).1,
        (UpdateApplicationTraced sql json s.tables application_id value).2)
    | [_, k1] =>
      if k1 = sql.kEventsName then
        (finishWrite s key value (UpdateEventsValueTraced sql s.tables key value).1,
          (UpdateEventsValueTraced sql s.tables key value).2)
      else (finishWrite s key value (false, s.tables), [])
    | _ => (finishWrite s key value (false, s.tables), [])
  else ((false, s), [])

/-- The test serializer extended with a legacy document of two entries: the record of the
unit test `DBUpgradeToV1` under the id `a.b`, then an entry `c` that has a manifest but
neither path nor install time. -/
def dottedPartialJson : Json where
  Serialize := testJson.Serialize
  Deserialize := fun text =>
    if text = "a.b: (a:b, path, 0.0), c: (a:b)" then
      some (Value.dict
        [("a.b", record (Value.dict [("a", Value.string "b")]) "path" 0),
         ("c", Value.dict [(kManifestPath, Value.dict [("a", Value.string "b")])])])
    else testJson.Deserialize text

/-! # Theorems -/

/-- The common end of the writing operations notifies every observer once when the write
succeeded and nobody otherwise. -/
theorem finishWrite_calls (s : DBStoreSqliteImpl) (key : String) (value : Option Value)
    (r : Bool × Tables) :
    (finishWrite s key value r).2.calls =
      (if (finishWrite s key value r).1 = true then
        s.calls ++ s.observers.map (fun o => Call.OnDBValueChanged o key value)
      else s.calls) := by
  unfold finishWrite
  cases h : r.1 <;> simp [ReportValueChanged]

/-- Claim C11: `Insert`, `Update` and `Delete` call `OnDBValueChanged` on every registered
observer exactly once, in registration order, with the caller's key and the written value
(null for `Delete`), when they return true, and call no observer when they return false;
`Query` leaves the whole state, the call log included, as it was. -/
theorem C11_change_notification (sql : Sql) (json : Json) (s : DBStoreSqliteImpl)
    (key : String) (value : Option Value) :
    ((Insert sql json s key value).2.calls =
        (if (Insert sql json s key value).1 = true then
          s.calls ++ s.observers.map (fun o => Call.OnDBValueChanged o key value)
        else s.calls)) ∧
    ((Update sql json s key value).2.calls =
        (if (Update sql json s key value).1 = true then
          s.calls ++ s.observers.map (fun o => Call.OnDBValueChanged o key value)
        else s.calls)) ∧
    ((Delete sql s key).2.calls =
        (if (Delete sql s key).1 = true then
          s.calls ++ s.observers.map (fun o => Call.OnDBValueChanged o key none)
        else s.calls)) ∧
    (Query sql json s key).2 = s := by
  refine ⟨?_, ?_, ?_, ?_⟩
  · unfold Insert
    split
    · split
      · simp
      · exact finishWrite_calls _ _ _ _
      · split <;> exact finishWrite_calls _ _ _ _
      · exact finishWrite_calls _ _ _ _
    · simp
  · unfold Update
    split
    · split
      · simp
      · exact finishWrite_calls _ _ _ _
      · split <;> exact finishWrite_calls _ _ _ _
      · exact finishWrite_calls _ _ _ _
    · simp
  · unfold Delete
    split
    · split
      · simp
      · exact finishWrite_calls _ _ _ _
      · exact finishWrite_calls _ _ _ _
    · simp
  · unfold Query
    split
    · split
      · rfl
      · rfl
      · split <;> rfl
      · rfl
    · rfl

/-- The empty key has no segment. -/
theorem FormatKeys_empty : FormatKeys "" = [] := by decide

/-- A write that did nothing ends with the state as it was. -/
theorem finishWrite_false (s : DBStoreSqliteImpl) (key : String) (value : Option Value) :
    finishWrite s key value (false, s.tables) = (false, s) := by
  simp [finishWrite]

/-- Claim C13: for a key of three or more segments, or of two segments the second of which
is not the events literal, `Insert`, `Update` and `Delete` return false and `Query` returns
null, all leaving the state (tables and call log) as it was; and `Delete` does so for every
two-segment key, the events key included. -/
theorem C13_unsupported_keys (sql : Sql) (json : Json) (s : DBStoreSqliteImpl)
    (key : String) (value : Option Value)
    (hkey : 3 ≤ (FormatKeys key).length ∨
      ∃ a b, FormatKeys key = [a, b] ∧ b ≠ sql.kEventsName) :
    Insert sql json s key value = (false, s) ∧
    Update sql json s key value = (false, s) ∧
    Delete sql s key = (false, s) ∧
    Query sql json s key = (none, s) ∧
    (∀ (k : String) (a b : String), FormatKeys k = [a, b] → Delete sql s k = (false, s)) := by
  have hdel : ∀ (k : String) (a b : String), FormatKeys k = [a, b] →
      Delete sql s k = (false, s) := by
    intro k a b hk
    unfold Delete
    split
    · simp [hk, finishWrite_false]
    · rfl
  rcases hkey with h3 | ⟨a, b, hab, hne⟩
  · match hk : FormatKeys key, h3 with
    | a :: b :: c :: rest, _ =>
      refine ⟨?_, ?_, ?_, ?_, hdel⟩
      · unfold Insert; split
        · simp [hk, finishWrite_false]
        · rfl
      · unfold Update; split
        · simp [hk, finishWrite_false]
        · rfl
      · unfold Delete; split
        · simp [hk, finishWrite_false]
        · rfl
      · unfold Query; split
        · simp [hk]
        · rfl
  · refine ⟨?_, ?_, hdel key a b hab, ?_, hdel⟩
    · unfold Insert; split
      · simp [hab, hne, finishWrite_false]
      · rfl
    · unfold Update; split
      · simp [hab, hne, finishWrite_false]
      · rfl
    · unfold Query; split
      · simp [hab, hne]
      · rfl

/-- Witness of C13 on a three-segment key, a two-segment key and the events key. -/
theorem C13_unsupported_keys_witness :
    Insert specSql testJson initStore "app1.manifest.name" (some (Value.list []))
        = (false, initStore) ∧
    Query specSql testJson initStore "app1.manifest" = (none, initStore) ∧
    Delete specSql initStore "app1.events" = (false, initStore) :=
  have h3 := C13_unsupported_keys specSql testJson initStore "app1.manifest.name"
    (some (Value.list [])) (Or.inl (by decide))
  have h2 := C13_unsupported_keys specSql testJson initStore "app1.manifest" none
    (Or.inr ⟨"app1", "manifest", by decide, by decide⟩)
  ⟨h3.1, h2.2.2.2.1, h2.2.2.2.2 "app1.events" "app1" "events" (by decide)⟩

/-- The end of `InitDB` touches neither the directory nor the read counter. -/
theorem initFinish_frame (env : InitEnv) (s : DBStoreSqliteImpl) :
    (initFinish env s).2.v0_reads = s.v0_reads ∧ (initFinish env s).2.v0_file = s.v0_file ∧
    (initFinish env s).2.tables = s.tables := by
  unfold initFinish
  split <;> simp

/-- Claim C15: `InitDB` runs the legacy migration (one more read of the legacy file) exactly
when it has opened the store and set up its tables, the legacy file exists and the
relational store file did not exist before the call; and whenever the relational store
file already exists, `InitDB` neither reads nor deletes the legacy file and leaves the
tables as they were, whatever the legacy file holds. -/
theorem C15_migration_one_shot (sql : Sql) (json : Json) (env : InitEnv)
    (s : DBStoreSqliteImpl) :
    ((InitDB sql json env s).2.v0_reads = s.v0_reads + 1 ↔
      (env.Open = true ∧ env.MetaTable = true ∧ env.InitTables = true) ∧
        s.v0_file.isSome = true ∧ s.db_file = false) ∧
    ((InitDB sql json env s).2.v0_reads ≠ s.v0_reads + 1 →
      (InitDB sql json env s).2.v0_reads = s.v0_reads) ∧
    (s.db_file = true →
      (InitDB sql json env s).2.v0_reads = s.v0_reads ∧
      (InitDB sql json env s).2.v0_file = s.v0_file ∧
      (InitDB sql json env s).2.tables = s.tables) := by
  unfold InitDB
  cases hO : env.Open <;> cases hM : env.MetaTable <;> cases hT : env.InitTables <;>
    cases hdb : s.db_file <;> cases hv : s.v0_file <;>
    simp [initFinish_frame, hv, hdb]
  all_goals
    split
    · simp [hv]
    · split <;> simp [initFinish_frame, hv]

/-- Witness of C15: with a legacy file and an existing relational store file nothing is
migrated; with a legacy file and no relational store file the migration runs. -/
theorem C15_migration_one_shot_witness :
    (InitDB specSql testJson okEnv
        (DBStoreSqliteImpl.create true emptyTables (some "legacy"))).2.v0_reads = 0 ∧
    (InitDB specSql testJson okEnv
        (DBStoreSqliteImpl.create false emptyTables (some "legacy"))).2.v0_reads = 0 + 1 :=
  ⟨((C15_migration_one_shot specSql testJson okEnv
      (DBStoreSqliteImpl.create true emptyTables (some "legacy"))).2.2 rfl).1,
   (C15_migration_one_shot specSql testJson okEnv
      (DBStoreSqliteImpl.create false emptyTables (some "legacy"))).1.mpr
      ⟨⟨rfl, rfl, rfl⟩, rfl, rfl⟩⟩

/-- The migration loop fails as soon as the insert of one entry fails. -/
theorem upgradeLoop_fails (sql : Sql) (json : Json) (k : String) (v : Value)
    (post : List (String × Value)) :
    ∀ (pre : List (String × Value)) (t0 t : Tables),
      upgradeLoop sql json pre t0 = (true, t) →
      (InsertApplication sql json t k (some v)).1 = false →
      (upgradeLoop sql json (pre ++ (k, v) :: post) t0).1 = false := by
  intro pre
  induction pre with
  | nil =>
    intro t0 t h hins
    simp only [upgradeLoop, Prod.mk.injEq, true_and] at h
    subst h
    simp only [List.nil_append, upgradeLoop]
    split
    · rename_i t2 heq
      rw [heq] at hins
      simp at hins
    · rfl
  | cons e rest ih =>
    intro t0 t h hins
    obtain ⟨k1, v1⟩ := e
    simp only [List.cons_append, upgradeLoop] at h ⊢
    split
    · rename_i t2 heq
      rw [heq] at h
      exact ih t2 t h hins
    · rfl

/-- On a store that is not initialised every operation is refused and nothing changes. -/
theorem uninitialised_refuses (sql : Sql) (json : Json) (s : DBStoreSqliteImpl)
    (h : s.db_initialized = false) (key : String) (value : Option Value) :
    Insert sql json s key value = (false, s) ∧ Update sql json s key value = (false, s) ∧
    Delete sql s key = (false, s) ∧ Query sql json s key = (none, s) := by
  simp [Insert, Update, Delete, Query, h]

/-- A call of `InitDB` that returns false leaves the initialised flag and the call log as
they were. -/
theorem InitDB_false_frame (sql : Sql) (json : Json) (env : InitEnv) (s : DBStoreSqliteImpl)
    (h : (InitDB sql json env s).1 = false) :
    (InitDB sql json env s).2.db_initialized = s.db_initialized ∧
    (InitDB sql json env s).2.calls = s.calls := by
  revert h
  unfold InitDB initFinish
  cases hO : env.Open <;> cases hM : env.MetaTable <;> cases hT : env.InitTables <;>
    cases hF : env.ForeignKeys <;> cases hD : env.DeleteFile <;>
    cases hdb : s.db_file <;> cases hv : s.v0_file <;>
    simp [hv, hdb]
  all_goals
    split <;> simp [hv, hF]

/-- A failing migration makes `InitDB` return false with the legacy file in place. -/
theorem InitDB_upgrade_fails (sql : Sql) (json : Json) (env : InitEnv) (s : DBStoreSqliteImpl)
    (v0 : String) (hv0 : s.v0_file = some v0) (hdb : s.db_file = false)
    (hfail : (UpgradeToVersion1 sql json emptyTables v0).1 = false) :
    (InitDB sql json env s).1 = false ∧ (InitDB sql json env s).2.v0_file = some v0 := by
  unfold InitDB
  cases hO : env.Open <;> cases hM : env.MetaTable <;> cases hT : env.InitTables <;>
    simp [hv0, hdb]
  split
  · simp [hv0]
  · rename_i t2 heq
    rw [heq] at hfail
    simp at hfail

/-- Claim C16: when the legacy migration fails, because the legacy document cannot be
deserialized or because the insert of one of its entries fails, `InitDB` on a fresh store
returns false, the store stays uninitialised (every later `Insert`, `Update` and `Delete`
returns false, `Query` returns null, and none changes anything), the legacy file still
exists with its content, and no observer call, hence no initialization-completed
notification, is made. -/
theorem C16_migration_failure (sql : Sql) (json : Json) (env : InitEnv)
    (s : DBStoreSqliteImpl) (v0 : String)
    (hfresh : s.db_initialized = false) (hv0 : s.v0_file = some v0)
    (hdb : s.db_file = false)
    (hfail : json.Deserialize v0 = none ∨
      ∃ (old_db : Value) (pre : List (String × Value)) (k : String) (v : Value)
        (post : List (String × Value)) (t : Tables),
        json.Deserialize v0 = some old_db ∧ old_db.entries = pre ++ (k, v) :: post ∧
        upgradeLoop sql json pre emptyTables = (true, t) ∧
        (InsertApplication sql json t k (some v)).1 = false) :
    (InitDB sql json env s).1 = false ∧
    (InitDB sql json env s).2.db_initialized = false ∧
    (InitDB sql json env s).2.v0_file = some v0 ∧
    (InitDB sql json env s).2.calls = s.calls ∧
    ∀ (key : String) (value : Option Value),
      Insert sql json (InitDB sql json env s).2 key value = (false, (InitDB sql json env s).2) ∧
      Update sql json (InitDB sql json env s).2 key value = (false, (InitDB sql json env s).2) ∧
      Delete sql (InitDB sql json env s).2 key = (false, (InitDB sql json env s).2) ∧
      Query sql json (InitDB sql json env s).2 key = (none, (InitDB sql json env s).2) := by
  have hup : (UpgradeToVersion1 sql json emptyTables v0).1 = false := by
    unfold UpgradeToVersion1
    rcases hfail with hnone | ⟨old_db, pre, k, v, post, t, hde, hent, hpre, hins⟩
    · simp [hnone]
    · simp only [hde, hent]
      exact upgradeLoop_fails sql json k v post pre emptyTables t hpre hins
  obtain ⟨hret, h2⟩ := InitDB_upgrade_fails sql json env s v0 hv0 hdb hup
  obtain ⟨h1, h3⟩ := InitDB_false_frame sql json env s hret
  refine ⟨hret, h1.trans hfresh, h2, h3, ?_⟩
  intro key value
  exact uninitialised_refuses sql json _ (h1.trans hfresh) key value

/-- Witness of C16: a legacy file whose text is not a document. -/
theorem C16_migration_failure_witness :
    (InitDB specSql testJson okEnv
      ((DBStoreSqliteImpl.create false emptyTables (some "not a document")).AddObserver 7)).1
        = false ∧
    (InitDB specSql testJson okEnv
      ((DBStoreSqliteImpl.create false emptyTables (some "not a document")).AddObserver 7)).2.v0_file
        = some "not a document" ∧
    (InitDB specSql testJson okEnv
      ((DBStoreSqliteImpl.create false emptyTables (some "not a document")).AddObserver 7)).2.calls
        = [] :=
  have h := C16_migration_failure specSql testJson okEnv
    ((DBStoreSqliteImpl.create false emptyTables (some "not a document")).AddObserver 7)
    "not a document" rfl rfl rfl (Or.inl (by rfl))
  ⟨h.1, h.2.2.1, h.2.2.2.1⟩

/-- Claim C20 (what the code does): `InitDB` calls `OnDBInitializationCompleted(true)` on
every observer when it returns true, and calls no observer at all when it returns false;
in particular an `InitDB` whose `Open` fails returns false with an empty call log although
an observer is registered. -/
theorem C20_InitDB_notifies_only_success (sql : Sql) (json : Json) (env : InitEnv)
    (s : DBStoreSqliteImpl) :
    (InitDB sql json env s).2.calls =
      (if (InitDB sql json env s).1 = true then
        s.calls ++ s.observers.map (fun o => Call.OnDBInitializationCompleted o true)
      else s.calls) ∧
    (InitDB specSql testJson { okEnv with Open := false }
      ((DBStoreSqliteImpl.create false emptyTables none).AddObserver 7)).1 = false ∧
    (InitDB specSql testJson { okEnv with Open := false }
      ((DBStoreSqliteImpl.create false emptyTables none).AddObserver 7)).2.calls = [] := by
  refine ⟨?_, by decide, by rfl⟩
  unfold InitDB initFinish
  cases hO : env.Open <;> cases hM : env.MetaTable <;> cases hT : env.InitTables <;>
    cases hF : env.ForeignKeys <;> cases hD : env.DeleteFile <;>
    cases hdb : s.db_file <;> cases hv : s.v0_file <;>
    simp [hv, hdb]
  all_goals
    split <;> simp [hv, hF]

/-- On an extracted package `Extract` returns the stored directory and changes nothing. -/
theorem Extract_of_extracted (env : ExtractEnv) (p : Package) (h : p.is_extracted = true) :
    p.Extract env = ((true, some p.temp_dir), p) := by
  simp [Package.Extract, h]

/-- A successful `Extract` leaves the package marked extracted, holding the directory it
returned. -/
theorem Extract_success (env : ExtractEnv) (p : Package) (d : String)
    (h : (p.Extract env).1 = (true, some d)) :
    (p.Extract env).2.is_extracted = true ∧ (p.Extract env).2.temp_dir = d := by
  revert h
  unfold Package.Extract
  split
  · rename_i hx
    simp only [Prod.mk.injEq, true_and, Option.some.injEq]
    intro h
    exact ⟨hx, h⟩
  · split
    · simp
    · split
      · simp
      · split <;> simp

/-- `CreateTempDirectory` does not touch the extracted mark. -/
theorem CreateTempDirectory_is_extracted (env : ExtractEnv) (p : Package) :
    (p.CreateTempDirectory env).2.is_extracted = p.is_extracted := by
  unfold Package.CreateTempDirectory
  simp only
  split
  · rfl
  · split
    · rfl
    · split <;> rfl

/-- A failed `Extract` leaves the package marked not extracted. -/
theorem Extract_failure (env : ExtractEnv) (p : Package) (h : (p.Extract env).1.1 = false) :
    (p.Extract env).2.is_extracted = false := by
  revert h
  have hc := CreateTempDirectory_is_extracted env p
  unfold Package.Extract
  cases hx : p.is_extracted
  · simp only [Bool.false_eq_true, if_false]
    rw [hx] at hc
    split
    · simp [hx]
    · split
      · rename_i p1 heq
        rw [heq] at hc
        simp only at hc
        simp [hc]
      · rename_i p1 heq
        rw [heq] at hc
        simp only at hc
        split <;> simp [hc]
  · simp

/-- Every call of a sequence of `Extract` calls on an extracted package returns its
directory and leaves the package as it was. -/
theorem ExtractAll_of_extracted (p : Package) (h : p.is_extracted = true) :
    ∀ envs : List ExtractEnv,
      Package.ExtractAll envs p = (envs.map (fun _ => (true, some p.temp_dir)), p) := by
  intro envs
  induction envs with
  | nil => rfl
  | cons e rest ih =>
    simp only [Package.ExtractAll, Extract_of_extracted e p h, ih, List.map_cons]

/-- Claim C19: once `Extract` has returned true with directory `d` on a package, every later
`Extract` on that package, whatever the file system then does, returns true with the same
`d` and leaves the package unchanged, its counts of temporary-directory creations and of
unzips included; and an `Extract` that fails leaves the package marked not extracted. -/
theorem C19_extract_idempotent (env : ExtractEnv) (p : Package) :
    (∀ d : String, (p.Extract env).1 = (true, some d) →
      ∀ later : List ExtractEnv,
        Package.ExtractAll later (p.Extract env).2 =
          (later.map (fun _ => (true, some d)), (p.Extract env).2)) ∧
    ((p.Extract env).1.1 = false → (p.Extract env).2.is_extracted = false) := by
  refine ⟨?_, Extract_failure env p⟩
  intro d h later
  obtain ⟨hx, hd⟩ := Extract_success env p d h
  rw [ExtractAll_of_extracted _ hx later, hd]

/-- Witness of C19: a first extraction into `/tmp/scoped_dir_1`, then two more calls, one of
them in an environment where creating a directory and unzipping would both fail. -/
theorem C19_extract_idempotent_witness :
    ((Package.create "app.xpk").Extract
      { tmp := "/tmp", unique_dir := some "/tmp/scoped_dir_1", Unzip := true }).1
        = (true, some "/tmp/scoped_dir_1") ∧
    (Package.ExtractAll
      [{ tmp := "", unique_dir := none, Unzip := false },
       { tmp := "/tmp", unique_dir := some "/tmp/scoped_dir_2", Unzip := true }]
      ((Package.create "app.xpk").Extract
        { tmp := "/tmp", unique_dir := some "/tmp/scoped_dir_1", Unzip := true }).2).1
        = [(true, some "/tmp/scoped_dir_1"), (true, some "/tmp/scoped_dir_1")] :=
  ⟨by decide,
   congrArg Prod.fst
    ((C19_extract_idempotent
      { tmp := "/tmp", unique_dir := some "/tmp/scoped_dir_1", Unzip := true }
      (Package.create "app.xpk")).1 "/tmp/scoped_dir_1" (by decide)
      [{ tmp := "", unique_dir := none, Unzip := false },
       { tmp := "/tmp", unique_dir := some "/tmp/scoped_dir_2", Unzip := true }])⟩

/-- Claim C17 (what the code does): with `app1` cached and stored, on a connection whose
transactions cannot begin, `ApplicationStore::RemoveApplication` returns false, the row of
`app1` is still in the table, and the cache has lost `app1`; with a failing backend
`ApplicationStorage::RemoveApplication` returns false and has erased `app1` from the cache,
and `ApplicationStorage::UpdateApplication` returns false and has replaced the cached entry;
only `ApplicationStore::UpdateApplication` leaves the cache as it was when the store fails. -/
theorem C17_cache_diverges_on_failure :
    (ApplicationStore.RemoveApplication lockedSql cacheWithApp1 "app1").1 = false ∧
    (ApplicationStore.RemoveApplication lockedSql cacheWithApp1 "app1").2.db_store.tables.applications.map
      (fun r => r.id) = ["app1"] ∧
    cacheWithApp1.applications.map (fun e => e.1) = ["app1"] ∧
    (ApplicationStore.RemoveApplication lockedSql cacheWithApp1 "app1").2.applications.map
      (fun e => e.1) = [] ∧
    (ApplicationStorage.RemoveApplication failingImpl storageWithApp1 "app1").1 = false ∧
    (ApplicationStorage.RemoveApplication failingImpl storageWithApp1 "app1").2.applications.map
      (fun e => e.1) = [] ∧
    (ApplicationStorage.UpdateApplication failingImpl storageWithApp1
      { ID := "app1", events := ["resume"] }).1 = false ∧
    storageWithApp1.applications.map (fun e => e.2.events) = [[]] ∧
    (ApplicationStorage.UpdateApplication failingImpl storageWithApp1
      { ID := "app1", events := ["resume"] }).2.applications.map (fun e => e.2.events)
        = [["resume"]] ∧
    (ApplicationStore.UpdateApplication lockedSql testJson 5 cacheWithApp1
      { app1 with path := "moved" }).1 = false ∧
    (ApplicationStore.UpdateApplication lockedSql testJson 5 cacheWithApp1
      { app1 with path := "moved" }).2.applications.map (fun e => e.2.path) = ["no path"] := by
  refine ⟨by decide, by decide, by decide, by decide, by decide, by decide, by decide,
    by decide, by decide, by decide, by decide⟩

/-- The key order is irreflexive. -/
theorem ltChars_irrefl : ∀ a : List Char, ltChars a a = false
  | [] => rfl
  | c :: cs => by simp [ltChars, ltChars_irrefl cs]

/-- The key order is asymmetric. -/
theorem ltChars_asymm : ∀ a b : List Char, ltChars a b = true → ltChars b a = false
  | [], [] => by simp [ltChars]
  | [], _ :: _ => by simp [ltChars]
  | _ :: _, [] => by simp [ltChars]
  | x :: xs, y :: ys => by
    intro h
    unfold ltChars at h ⊢
    by_cases h1 : x.toNat < y.toNat
    · have h2 : ¬ y.toNat < x.toNat := by omega
      have h3 : ¬ y.toNat = x.toNat := by omega
      simp [h2, h3]
    · by_cases h4 : x.toNat = y.toNat
      · have h2 : ¬ y.toNat < x.toNat := by omega
        rw [if_neg h1, if_pos h4] at h
        rw [if_neg h2, if_pos h4.symm]
        exact ltChars_asymm xs ys h
      · simp [h1, h4] at h

/-- A key is different from every smaller key. -/
theorem keyLt_ne (a b : String) (h : keyLt a b = true) : a ≠ b := by
  intro hab
  subst hab
  simp [keyLt, ltChars_irrefl] at h

/-- Setting a key larger than every key of a dictionary appends the entry. -/
theorem SetWithoutPathExpansion_append (key : String) (v : Value) :
    ∀ acc : List (String × Value), (∀ e ∈ acc, keyLt e.1 key = true) →
      SetWithoutPathExpansion acc key v = acc ++ [(key, v)]
  | [], _ => rfl
  | (k, w) :: rest, h => by
    have hk : keyLt k key = true := h (k, w) (List.mem_cons_self _ _)
    have hne : key ≠ k := fun e => keyLt_ne k key hk e.symm
    have hlt : keyLt key k = false := ltChars_asymm _ _ hk
    simp only [SetWithoutPathExpansion, hne, if_false, hlt, List.cons_append]
    rw [SetWithoutPathExpansion_append key v rest
      (fun e he => h e (List.mem_cons_of_mem _ he))]
    simp

/-- A character list without the separator is a single piece. -/
theorem rawSplit_of_not_mem (sep : Char) :
    ∀ cs : List Char, sep ∉ cs → rawSplit sep cs = [cs]
  | [], _ => rfl
  | c :: cs, h => by
    have hc : c ≠ sep := fun e => h (by simp [e])
    have hcs : sep ∉ cs := fun e => h (List.mem_cons_of_mem _ e)
    simp [rawSplit, hc, rawSplit_of_not_mem sep cs hcs]

/-- A path without a dot is a single segment. -/
theorem pathSegments_of_no_dot (path : String) (h : '.' ∉ path.data) :
    pathSegments path = [path] := by
  simp [pathSegments, rawSplit_of_not_mem '.' path.data h]

/-- `Set` with a dot-free key larger than every key of the dictionary appends the entry. -/
theorem DictSet_append (acc : List (String × Value)) (key : String) (v : Value)
    (hdot : '.' ∉ key.data) (h : ∀ e ∈ acc, keyLt e.1 key = true) :
    DictSet acc key v = acc ++ [(key, v)] := by
  simp [DictSet, pathSegments_of_no_dot key hdot, setSegments,
    SetWithoutPathExpansion_append key v acc h]

/-- The fields `InsertApplication` reads from a record. -/
theorem record_fields (m : Value) (p : String) (t : Rat) :
    (record m p t).Get kManifestPath = some m ∧
    (record m p t).GetString kApplicationPath = some p ∧
    (record m p t).GetDouble kInstallTime = some t := by
  refine ⟨rfl, rfl, rfl⟩

/-- The value the queries build from a row is the record of its columns. -/
theorem rowValue_record (json : Json) (r : AppRow) (m : Value)
    (h : json.Deserialize r.manifest = some m) :
    rowValue json r = some (record m r.path r.install_time) := by
  simp only [rowValue, h]
  rfl

/-- With the statements of the specification, inserting a record under an id that has no
row appends the row of its columns. -/
theorem InsertApplication_record (json : Json) (t : Tables) (id : String) (m : Value)
    (p : String) (tm : Rat) (text : String) (hser : json.Serialize m = some text)
    (hnew : hasApp id t.applications = false) :
    InsertApplication specSql json t id (some (record m p tm)) =
      (true, { t with applications := t.applications ++
        [{ id := id, manifest := text, path := p, install_time := tm }] }) := by
  obtain ⟨h1, h2, h3⟩ := record_fields m p tm
  simp [InsertApplication, h1, h2, h3, hser, runInTransaction, specSql, hnew]

/-- Whether an id has a row after one more row was appended. -/
theorem hasApp_append (id : String) (rows : List AppRow) (r : AppRow) :
    hasApp id (rows ++ [r]) = (hasApp id rows || decide (r.id = id)) := by
  simp [hasApp]

/-- With the statements of the specification the migration loop over a well-formed legacy
document, none of whose ids has a row yet, succeeds and appends one row per entry, from
which the queries rebuild the entry's record. -/
theorem upgradeLoop_document (json : Json) :
    ∀ (D : List (String × Value)) (t : Tables), LegacyDocument json D →
      (∀ e ∈ D, hasApp e.1 t.applications = false) →
      ∃ rows : List AppRow,
        upgradeLoop specSql json D t =
          (true, { t with applications := t.applications ++ rows }) ∧
        List.Forall₂ (fun r e => r.id = e.1 ∧ rowValue json r = some e.2) rows D := by
  intro D
  induction D with
  | nil =>
    intro t _ _
    exact ⟨[], by simp [upgradeLoop], List.Forall₂.nil⟩
  | cons e rest ih =>
    intro t hdoc hnew
    obtain ⟨hsorted, hrec⟩ := hdoc
    obtain ⟨k, v⟩ := e
    obtain ⟨m, p, tm, text, hv, hser, hde⟩ := hrec (k, v) (List.mem_cons_self _ _)
    simp only at hv
    subst hv
    have hk : hasApp k t.applications = false := hnew (k, record m p tm) (List.mem_cons_self _ _)
    have hins := InsertApplication_record json t k m p tm text hser hk
    rw [List.pairwise_cons] at hsorted
    have hrest : LegacyDocument json rest :=
      ⟨hsorted.2, fun e he => hrec e (List.mem_cons_of_mem _ he)⟩
    have hnew2 : ∀ e ∈ rest, hasApp e.1
        (t.applications ++ [{ id := k, manifest := text, path := p, install_time := tm }])
          = false := by
      intro e he
      rw [hasApp_append, hnew e (List.mem_cons_of_mem _ he)]
      have hne : k ≠ e.1 := keyLt_ne k e.1 (hsorted.1 e he)
      simp [hne]
    obtain ⟨rows, hloop, hall⟩ := ih
      { t with applications := t.applications ++
        [{ id := k, manifest := text, path := p, install_time := tm }] } hrest hnew2
    refine ⟨{ id := k, manifest := text, path := p, install_time := tm } :: rows, ?_, ?_⟩
    · simp only [upgradeLoop, hins, hloop]
      simp
    · refine List.Forall₂.cons ⟨rfl, ?_⟩ hall
      exact rowValue_record json _ m hde

/-- The whole-collection loop over the rows of a sorted document with dot-free ids, started
from a dictionary whose keys all precede the document's, appends the document. -/
theorem queryInstalledLoop_document (json : Json) :
    ∀ (rows : List AppRow) (D acc : List (String × Value)),
      List.Forall₂ (fun r e => r.id = e.1 ∧ rowValue json r = some e.2) rows D →
      (acc ++ D).Pairwise (fun a b => keyLt a.1 b.1 = true) →
      (∀ e ∈ D, '.' ∉ e.1.data) →
      queryInstalledLoop json rows acc = some (Value.dict (acc ++ D)) := by
  intro rows
  induction rows with
  | nil =>
    intro D acc hall _ _
    cases hall
    simp [queryInstalledLoop]
  | cons r rs ih =>
    intro D acc hall hsorted hdot
    cases hall with
    | cons hhead htail =>
      rename_i e D2
      obtain ⟨hid, hval⟩ := hhead
      have hlt : ∀ x ∈ acc, keyLt x.1 e.1 = true := by
        intro x hx
        exact (List.pairwise_append.mp hsorted).2.2 x hx e (List.mem_cons_self _ _)
      have hset : DictSet acc r.id e.2 = acc ++ [e] := by
        rw [hid]
        exact DictSet_append acc e.1 e.2 (hdot e (List.mem_cons_self _ _)) hlt
      simp only [queryInstalledLoop, hval, hset]
      have h2 := ih D2 (acc ++ [e]) htail (by simpa using hsorted)
        (fun x hx => hdot x (List.mem_cons_of_mem _ hx))
      simpa using h2

/-- Claim C14, amended: with the statements of the specification and every outside call
succeeding, for every legacy document whose application ids contain no dot and whose
entries are records of a serializable manifest, a string path and a double install time,
`InitDB` on a directory that holds the document as `applications_db` and no
`applications.db` returns true, the legacy file no longer exists afterwards, and
`Query("")` returns a dictionary equal to the document. -/
theorem C14_migration_transfers_document (json : Json) (s : DBStoreSqliteImpl) (v0 : String)
    (D : List (String × Value))
    (hv0 : s.v0_file = some v0) (hdb : s.db_file = false)
    (hde : json.Deserialize v0 = some (Value.dict D))
    (hdoc : LegacyDocument json D)
    (hdot : ∀ e ∈ D, '.' ∉ e.1.data) :
    (InitDB specSql json okEnv s).1 = true ∧
    (InitDB specSql json okEnv s).2.v0_file = none ∧
    (Query specSql json (InitDB specSql json okEnv s).2 "").1 = some (Value.dict D) := by
  obtain ⟨rows, hloop, hall⟩ := upgradeLoop_document json D emptyTables hdoc
    (by intro e _; rfl)
  have hq := queryInstalledLoop_document json rows D [] hall (by simpa using hdoc.1) hdot
  have hup : UpgradeToVersion1 specSql json emptyTables v0 =
      (true, { emptyTables with applications := emptyTables.applications ++ rows }) := by
    simp only [UpgradeToVersion1, hde, Value.entries, hloop]
  have hinit : InitDB specSql json okEnv s =
      (true, { s with
        db_file := true
        tables := { emptyTables with applications := emptyTables.applications ++ rows }
        v0_reads := s.v0_reads + 1
        v0_file := none
        db_initialized := true
        calls := s.calls ++
          s.observers.map (fun o => Call.OnDBInitializationCompleted o true) }) := by
    simp [InitDB, okEnv, hv0, hdb, hup, initFinish]
  rw [hinit]
  refine ⟨rfl, rfl, ?_⟩
  simp only [Query, FormatKeys_empty, if_true, QueryInstalledApplications]
  have hrows : specSql.kGetInstalledApplicationsOp
      { emptyTables with applications := emptyTables.applications ++ rows } = some rows := by
    simp [specSql, emptyTables]
  rw [hrows]
  simpa using hq

/-- Witness of the amended C14: the legacy document of the unit test `DBUpgradeToV1`. -/
theorem C14_migration_transfers_document_witness :
    (InitDB specSql testJson okEnv
      (DBStoreSqliteImpl.create false emptyTables (some "test_id: (a:b, path, 0.0)"))).1 = true ∧
    (InitDB specSql testJson okEnv
      (DBStoreSqliteImpl.create false emptyTables
        (some "test_id: (a:b, path, 0.0)"))).2.v0_file = none ∧
    (Query specSql testJson
      (InitDB specSql testJson okEnv
        (DBStoreSqliteImpl.create false emptyTables (some "test_id: (a:b, path, 0.0)"))).2
      "").1 =
      some (Value.dict
        [("test_id", record (Value.dict [("a", Value.string "b")]) "path" 0)]) :=
  C14_migration_transfers_document testJson
    (DBStoreSqliteImpl.create false emptyTables (some "test_id: (a:b, path, 0.0)"))
    "test_id: (a:b, path, 0.0)"
    [("test_id", record (Value.dict [("a", Value.string "b")]) "path" 0)]
    rfl rfl rfl
    ⟨by simp, by
      intro e he
      simp only [List.mem_singleton] at he
      subst he
      exact ⟨Value.dict [("a", Value.string "b")], "path", 0, "a:b", rfl, rfl, rfl⟩⟩
    (by
      intro e he
      simp only [List.mem_singleton] at he
      subst he
      decide)

/-- Counterexample to C14 as stated: the legacy document of the unit test under the id
`a.b` is a well-formed document, `InitDB` migrates it and returns true, but `Query("")`
returns a dictionary with the single key `a`, holding a dictionary with the key `b`, which
is not the document. -/
theorem C14_dotted_id_counterexample :
    LegacyDocument testJson
      [("a.b", record (Value.dict [("a", Value.string "b")]) "path" 0)] ∧
    testJson.Deserialize "a.b: (a:b, path, 0.0)" =
      some (Value.dict [("a.b", record (Value.dict [("a", Value.string "b")]) "path" 0)]) ∧
    (InitDB specSql testJson okEnv
      (DBStoreSqliteImpl.create false emptyTables (some "a.b: (a:b, path, 0.0)"))).1 = true ∧
    (Query specSql testJson
      (InitDB specSql testJson okEnv
        (DBStoreSqliteImpl.create false emptyTables (some "a.b: (a:b, path, 0.0)"))).2
      "").1 =
      some (Value.dict
        [("a", Value.dict
          [("b", record (Value.dict [("a", Value.string "b")]) "path" 0)])]) ∧
    (Query specSql testJson
      (InitDB specSql testJson okEnv
        (DBStoreSqliteImpl.create false emptyTables (some "a.b: (a:b, path, 0.0)"))).2
      "").1 ≠
      some (Value.dict [("a.b", record (Value.dict [("a", Value.string "b")]) "path" 0)]) := by
  have hq : (Query specSql testJson
      (InitDB specSql testJson okEnv
        (DBStoreSqliteImpl.create false emptyTables (some "a.b: (a:b, path, 0.0)"))).2
      "").1 =
      some (Value.dict
        [("a", Value.dict
          [("b", record (Value.dict [("a", Value.string "b")]) "path" 0)])]) := rfl
  refine ⟨⟨by simp, ?_⟩, rfl, by decide, hq, ?_⟩
  · intro e he
    simp only [List.mem_singleton] at he
    subst he
    exact ⟨Value.dict [("a", Value.string "b")], "path", 0, "a:b", rfl, rfl, rfl⟩
  · rw [hq]
    intro h
    simp at h

/-- Claim C1 (what the code does): on a store initialised on an empty directory that holds
the record of `app1`, `Insert` with the events key `app1.events` and the list x, y, z
returns true, and so does `Update`, but `Query` with that same key returns null both times:
the row was written under the id `app1.events` and is looked up under the id `app1`. -/
theorem C1_event_round_trip_fails :
    (Insert specSql testJson storeWithApp1 "app1.events"
      (some (Value.list [Value.string "x", Value.string "y", Value.string "z"]))).1 = true ∧
    (Insert specSql testJson storeWithApp1 "app1.events"
      (some (Value.list [Value.string "x", Value.string "y", Value.string "z"]))).2.tables.events.map
        (fun r => (r.id, r.events)) = [("app1.events", "x;y;z")] ∧
    (Query specSql testJson
      (Insert specSql testJson storeWithApp1 "app1.events"
        (some (Value.list [Value.string "x", Value.string "y", Value.string "z"]))).2
      "app1.events").1.isNone = true ∧
    (Update specSql testJson storeWithApp1 "app1.events"
      (some (Value.list [Value.string "x", Value.string "y", Value.string "z"]))).1 = true ∧
    (Query specSql testJson
      (Update specSql testJson storeWithApp1 "app1.events"
        (some (Value.list [Value.string "x", Value.string "y", Value.string "z"]))).2
      "app1.events").1.isNone = true := by
  refine ⟨by decide, by decide, by decide, by decide, by decide⟩

/-- A row of the id is gone once the rows of the id are removed. -/
theorem hasApp_withoutApp (id : String) (rows : List AppRow) :
    hasApp id (withoutApp id rows) = false := by
  simp [hasApp, withoutApp]

/-- Claim C6: with the statements of the specification, `Delete` of a single-segment id
that has no row returns false and leaves the state, tables and call log, as it was; in
particular a second `Delete` right after a successful one does so. -/
theorem C6_delete_absent_fails (s : DBStoreSqliteImpl) (key id : String)
    (hkey : FormatKeys key = [id]) :
    (hasApp id s.tables.applications = false → Delete specSql s key = (false, s)) ∧
    ((Delete specSql s key).1 = true →
      Delete specSql (Delete specSql s key).2 key = (false, (Delete specSql s key).2)) := by
  have habs : ∀ s2 : DBStoreSqliteImpl, hasApp id s2.tables.applications = false →
      Delete specSql s2 key = (false, s2) := by
    intro s2 h
    unfold Delete
    split
    · simp [hkey, DeleteApplication, runInTransaction, specSql, h, finishWrite]
    · rfl
  refine ⟨habs s, ?_⟩
  intro hok
  apply habs
  cases hh : hasApp id s.tables.applications
  · rw [habs s hh] at hok
    simp at hok
  · cases hi : s.db_initialized
    · simp [Delete, hi] at hok
    · have hd : Delete specSql s key =
          (true, ReportValueChanged
            { s with tables :=
              { s.tables with applications := withoutApp id s.tables.applications } }
            key none) := by
        simp [Delete, hi, hkey, DeleteApplication, runInTransaction, specSql, hh, finishWrite]
      rw [hd]
      simp [ReportValueChanged, hasApp_withoutApp]

/-- Witness of C6: deleting `app1` twice from the store that holds it. -/
theorem C6_delete_absent_fails_witness :
    (Delete specSql storeWithApp1 "app1").1 = true ∧
    (Delete specSql (Delete specSql storeWithApp1 "app1").2 "app1").1 = false ∧
    Delete specSql initStore "app1" = (false, initStore) :=
  ⟨by decide,
   congrArg Prod.fst
     ((C6_delete_absent_fails storeWithApp1 "app1" "app1" (by decide)).2 (by decide)),
   (C6_delete_absent_fails initStore "app1" "app1" (by decide)).1 (by decide)⟩

/-- Claim C7: with the statements of the specification, `Update` of a single-segment id
that has no row returns false, whatever the value, and leaves the state as it was: no row
is created and no observer is called. -/
theorem C7_update_absent_fails (json : Json) (s : DBStoreSqliteImpl) (key id : String)
    (value : Option Value) (hkey : FormatKeys key = [id])
    (habs : hasApp id s.tables.applications = false) :
    Update specSql json s key value = (false, s) := by
  have hu : UpdateApplication specSql json s.tables id value = (false, s.tables) := by
    unfold UpdateApplication
    split
    · rfl
    · split
      · rfl
      · split
        · rfl
        · split
          · rfl
          · simp [runInTransaction, specSql, habs]
  unfold Update
  split
  · simp [hkey, hu, finishWrite]
  · rfl

/-- Witness of C7: updating `app1` on the store initialised on an empty directory. -/
theorem C7_update_absent_fails_witness :
    Update specSql testJson initStore "app1" (some testRecord) = (false, initStore) :=
  C7_update_absent_fails testJson initStore "app1" "app1" (some testRecord) (by decide)
    (by decide)

/-- Claim C8: with the statements of the specification, `Insert` of a single-segment id
that already has a row returns false, whatever the value, and leaves the state as it was,
the stored row included. -/
theorem C8_insert_duplicate_fails (json : Json) (s : DBStoreSqliteImpl) (key id : String)
    (value : Option Value) (hkey : FormatKeys key = [id])
    (hdup : hasApp id s.tables.applications = true) :
    Insert specSql json s key value = (false, s) := by
  have hu : InsertApplication specSql json s.tables id value = (false, s.tables) := by
    unfold InsertApplication
    split
    · rfl
    · split
      · rfl
      · split
        · rfl
        · split
          · rfl
          · simp [runInTransaction, specSql, hdup]
  unfold Insert
  split
  · simp [hkey, hu, finishWrite]
  · rfl

/-- Witness of C8: inserting `app1` again into the store that holds it. -/
theorem C8_insert_duplicate_fails_witness :
    Insert specSql testJson storeWithApp1 "app1"
      (some (record (Value.dict [("a", Value.string "c")]) "other" 1))
        = (false, storeWithApp1) :=
  C8_insert_duplicate_fails testJson storeWithApp1 "app1" "app1"
    (some (record (Value.dict [("a", Value.string "c")]) "other" 1)) (by decide) (by decide)

/-- A transaction that fails leaves the tables it started from. -/
theorem runInTransaction_false (sql : Sql) (t : Tables) (stmt : Tables → Option Tables)
    (h : (runInTransaction sql t stmt).1 = false) : (runInTransaction sql t stmt).2 = t := by
  revert h
  unfold runInTransaction
  split
  · split
    · simp
    · split <;> simp
  · simp

/-- `InsertApplication` that fails leaves the tables it started from. -/
theorem InsertApplication_false (sql : Sql) (json : Json) (t : Tables) (id : String)
    (value : Option Value) (h : (InsertApplication sql json t id value).1 = false) :
    (InsertApplication sql json t id value).2 = t := by
  revert h
  unfold InsertApplication
  split
  · simp
  · split
    · simp
    · split
      · simp
      · split
        · simp
        · exact runInTransaction_false sql t _

/-- `UpdateApplication` that fails leaves the tables it started from. -/
theorem UpdateApplication_false (sql : Sql) (json : Json) (t : Tables) (id : String)
    (value : Option Value) (h : (UpdateApplication sql json t id value).1 = false) :
    (UpdateApplication sql json t id value).2 = t := by
  revert h
  unfold UpdateApplication
  split
  · simp
  · split
    · simp
    · split
      · simp
      · split
        · simp
        · exact runInTransaction_false sql t _

/-- `InsertEventsValue` that fails leaves the tables it started from. -/
theorem InsertEventsValue_false (sql : Sql) (t : Tables) (id : String)
    (value : Option Value) (h : (InsertEventsValue sql t id value).1 = false) :
    (InsertEventsValue sql t id value).2 = t := by
  revert h
  unfold InsertEventsValue
  split
  · simp
  · exact runInTransaction_false sql t _

/-- `UpdateEventsValue` that fails leaves the tables it started from. -/
theorem UpdateEventsValue_false (sql : Sql) (t : Tables) (id : String)
    (value : Option Value) (h : (UpdateEventsValue sql t id value).1 = false) :
    (UpdateEventsValue sql t id value).2 = t := by
  revert h
  unfold UpdateEventsValue
  split
  · simp
  · exact runInTransaction_false sql t _

/-- The end of a writing operation whose writing function failed without changing the
tables is the state as it was. -/
theorem finishWrite_of_false (s : DBStoreSqliteImpl) (key : String) (value : Option Value)
    (r : Bool × Tables) (hr : r.1 = false → r.2 = s.tables)
    (h : (finishWrite s key value r).1 = false) : (finishWrite s key value r).2 = s := by
  revert h
  unfold finishWrite
  cases h1 : r.1
  · intro _
    simp [hr h1]
  · simp

/-- Claim C10: for every store state, key and value, and whatever the statements do, when
`Insert`, `Update` or `Delete` returns false the state after the call is the state before
it: the applications and events tables are unchanged (and no observer was called). -/
theorem C10_failed_mutation_changes_nothing (sql : Sql) (json : Json)
    (s : DBStoreSqliteImpl) (key : String) (value : Option Value) :
    ((Insert sql json s key value).1 = false → (Insert sql json s key value).2 = s) ∧
    ((Update sql json s key value).1 = false → (Update sql json s key value).2 = s) ∧
    ((Delete sql s key).1 = false → (Delete sql s key).2 = s) := by
  refine ⟨?_, ?_, ?_⟩
  · unfold Insert
    split
    · split
      · simp
      · exact finishWrite_of_false s key value _ (InsertApplication_false sql json _ _ _)
      · split
        · exact finishWrite_of_false s key value _ (InsertEventsValue_false sql _ _ _)
        · exact finishWrite_of_false s key value _ (fun _ => rfl)
      · exact finishWrite_of_false s key value _ (fun _ => rfl)
    · simp
  · unfold Update
    split
    · split
      · simp
      · exact finishWrite_of_false s key value _ (UpdateApplication_false sql json _ _ _)
      · split
        · exact finishWrite_of_false s key value _ (UpdateEventsValue_false sql _ _ _)
        · exact finishWrite_of_false s key value _ (fun _ => rfl)
      · exact finishWrite_of_false s key value _ (fun _ => rfl)
    · simp
  · unfold Delete
    split
    · split
      · simp
      · exact finishWrite_of_false s key none _
          (runInTransaction_false sql _ _)
      · exact finishWrite_of_false s key none _ (fun _ => rfl)
    · simp

/-- No piece of a split contains the separator. -/
theorem rawSplit_not_mem (sep : Char) :
    ∀ (cs : List Char) (p : List Char), p ∈ rawSplit sep cs → sep ∉ p
  | [], p, h => by
    simp only [rawSplit, List.mem_singleton] at h
    subst h
    simp
  | c :: cs, p, h => by
    unfold rawSplit at h
    by_cases hc : c = sep
    · simp only [hc, if_true, List.mem_cons] at h
      rcases h with h | h
      · subst h
        simp
      · exact rawSplit_not_mem sep cs p h
    · simp only [hc, if_false] at h
      cases hr : rawSplit sep cs with
      | nil =>
        simp only [hr, List.mem_singleton] at h
        subst h
        simp [Ne.symm hc]
      | cons q qs =>
        simp only [hr, List.mem_cons] at h
        rcases h with h | h
        · subst h
          have hq : sep ∉ q := rawSplit_not_mem sep cs q (by simp [hr])
          simp [Ne.symm hc, hq]
        · exact rawSplit_not_mem sep cs p (by simp [hr, h])

/-- Trimming keeps only characters of the input. -/
theorem TrimWhitespace_subset (cs : List Char) : ∀ x ∈ TrimWhitespace cs, x ∈ cs := by
  intro x hx
  unfold TrimWhitespace at hx
  rw [List.mem_reverse] at hx
  have h1 := List.dropWhile_subset isWhitespaceASCII hx
  rw [List.mem_reverse] at h1
  exact List.dropWhile_subset isWhitespaceASCII h1

/-- No segment of `SplitString` contains the separator. -/
theorem SplitString_not_mem (str : String) (c : Char) :
    ∀ seg ∈ SplitString str c, c ∉ seg.data := by
  have hall : ∀ seg ∈ (rawSplit c str.data).map (fun p => String.mk (TrimWhitespace p)),
      c ∉ seg.data := by
    intro seg hseg
    rw [List.mem_map] at hseg
    obtain ⟨p, hp, rfl⟩ := hseg
    intro hmem
    exact rawSplit_not_mem c str.data p hp (TrimWhitespace_subset p c hmem)
  intro seg hseg
  unfold SplitString at hseg
  split at hseg
  · rename_i p heq
    split at hseg
    · simp at hseg
    · rw [heq] at hall
      exact hall seg hseg
  · exact hall seg hseg

/-- The application id of a single-segment key contains no dot. -/
theorem FormatKeys_single_no_dot (key id : String) (h : FormatKeys key = [id]) :
    '.' ∉ id.data :=
  SplitString_not_mem key '.' id (by unfold FormatKeys at h; simp [h])

/-- Reading the key just set gives the value set. -/
theorem Get_Set_same (key : String) (v : Value) :
    ∀ d : List (String × Value),
      GetWithoutPathExpansion (SetWithoutPathExpansion d key v) key = some v
  | [] => by simp [SetWithoutPathExpansion, GetWithoutPathExpansion]
  | (k, w) :: rest => by
    unfold SetWithoutPathExpansion
    by_cases h1 : key = k
    · simp [h1, GetWithoutPathExpansion]
    · by_cases h2 : keyLt key k = true
      · simp [h1, h2, GetWithoutPathExpansion]
      · simp [h1, h2, GetWithoutPathExpansion, Get_Set_same key v rest]

/-- Reading another key than the one just set gives what was there. -/
theorem Get_Set_other (key k2 : String) (v : Value) (hne : k2 ≠ key) :
    ∀ d : List (String × Value),
      GetWithoutPathExpansion (SetWithoutPathExpansion d key v) k2 =
        GetWithoutPathExpansion d k2
  | [] => by simp [SetWithoutPathExpansion, GetWithoutPathExpansion, hne]
  | (k, w) :: rest => by
    unfold SetWithoutPathExpansion
    by_cases h1 : key = k
    · subst h1
      simp [GetWithoutPathExpansion, hne]
    · by_cases h2 : keyLt key k = true
      · simp [h1, h2, GetWithoutPathExpansion, hne]
      · simp only [h1, h2, if_false, GetWithoutPathExpansion]
        rw [Get_Set_other key k2 v hne rest]

/-- `Set` with a dot-free key is `SetWithoutPathExpansion`. -/
theorem DictSet_no_dot (d : List (String × Value)) (key : String) (v : Value)
    (hdot : '.' ∉ key.data) : DictSet d key v = SetWithoutPathExpansion d key v := by
  simp [DictSet, pathSegments_of_no_dot key hdot, setSegments]

/-- `Get` with a dot-free key is `GetWithoutPathExpansion`. -/
theorem Get_no_dot (d : List (String × Value)) (key : String) (hdot : '.' ∉ key.data) :
    (Value.dict d).Get key = GetWithoutPathExpansion d key := by
  simp [Value.Get, pathSegments_of_no_dot key hdot, getSegments]

/-- The whole-collection loop over rows with dot-free ids and readable manifests ends with a
dictionary that holds, under every key, the value of the last row of that id. -/
theorem queryInstalledLoop_get (json : Json) :
    ∀ (rows : List AppRow) (acc : List (String × Value)),
      (∀ r ∈ rows, '.' ∉ r.id.data ∧ (json.Deserialize r.manifest).isSome = true) →
      ∃ d, queryInstalledLoop json rows acc = some (Value.dict d) ∧
        ∀ k, GetWithoutPathExpansion d k =
          lastValue json rows k (GetWithoutPathExpansion acc k) := by
  intro rows
  induction rows with
  | nil =>
    intro acc _
    exact ⟨acc, rfl, fun _ => rfl⟩
  | cons r rs ih =>
    intro acc hok
    obtain ⟨hdot, hde⟩ := hok r (List.mem_cons_self _ _)
    obtain ⟨m, hm⟩ := Option.isSome_iff_exists.mp hde
    have hv := rowValue_record json r m hm
    obtain ⟨d, hd, hget⟩ := ih (DictSet acc r.id (record m r.path r.install_time))
      (fun x hx => hok x (List.mem_cons_of_mem _ hx))
    refine ⟨d, ?_, ?_⟩
    · simp only [queryInstalledLoop, hv, hd]
    · intro k
      rw [hget k, DictSet_no_dot _ _ _ hdot]
      simp only [lastValue, hv]
      by_cases hk : k = r.id
      · subst hk
        simp [Get_Set_same]
      · simp [hk, Get_Set_other r.id k _ hk]

/-- Rows of other ids do not change the value left under a key. -/
theorem lastValue_of_not_mem (json : Json) (k : String) :
    ∀ (rows : List AppRow) (cur : Option Value), (∀ r ∈ rows, r.id ≠ k) →
      lastValue json rows k cur = cur
  | [], _, _ => rfl
  | r :: rs, cur, h => by
    have hr : k ≠ r.id := fun e => h r (List.mem_cons_self _ _) e.symm
    simp only [lastValue, hr, if_false]
    exact lastValue_of_not_mem json k rs cur (fun x hx => h x (List.mem_cons_of_mem _ hx))

/-- The value left under a key by rows followed by one more row of that key. -/
theorem lastValue_append_same (json : Json) (r : AppRow) :
    ∀ (rows : List AppRow) (cur : Option Value),
      lastValue json (rows ++ [r]) r.id cur = rowValue json r
  | [], _ => by simp [lastValue]
  | x :: rs, cur => by
    simp only [List.cons_append, lastValue]
    exact lastValue_append_same json r rs _

/-- The value left under a key by rows followed by one more row of another key. -/
theorem lastValue_append_other (json : Json) (r : AppRow) (k : String) (hk : k ≠ r.id) :
    ∀ (rows : List AppRow) (cur : Option Value),
      lastValue json (rows ++ [r]) k cur = lastValue json rows k cur
  | [], _ => by simp [lastValue, hk]
  | x :: rs, cur => by
    simp only [List.cons_append, lastValue]
    exact lastValue_append_other json r k hk rs _

/-- `Query("")` on an initialised store with the statements of the specification: a
dictionary that holds under every key the value of the last row of that id. -/
theorem Query_all_get (json : Json) (s : DBStoreSqliteImpl) (hinit : s.db_initialized = true)
    (hok : TablesOk json s.tables) :
    ∃ d, (Query specSql json s "").1 = some (Value.dict d) ∧
      ∀ k, GetWithoutPathExpansion d k = lastValue json s.tables.applications k none := by
  obtain ⟨d, hd, hget⟩ := queryInstalledLoop_get json s.tables.applications [] hok
  refine ⟨d, ?_, ?_⟩
  · simp [Query, hinit, FormatKeys_empty, QueryInstalledApplications, specSql, hd]
  · intro k
    rw [hget k]
    rfl

/-- What a successful `InsertApplication` has done, with the statements of the
specification: the value was a record with a serializable manifest, the id had no row, and
the row of the record was appended. -/
theorem InsertApplication_true (json : Json) (t : Tables) (id : String)
    (value : Option Value) (h : (InsertApplication specSql json t id value).1 = true) :
    hasApp id t.applications = false ∧
    ∃ (v m : Value) (p : String) (tm : Rat) (text : String),
      value = some v ∧ v.Get kManifestPath = some m ∧ json.Serialize m = some text ∧
      v.GetString kApplicationPath = some p ∧ v.GetDouble kInstallTime = some tm ∧
      (InsertApplication specSql json t id value).2 =
        { t with applications := t.applications ++
          [{ id := id, manifest := text, path := p, install_time := tm }] } := by
  cases value with
  | none => simp [InsertApplication] at h
  | some v =>
    cases hm : v.Get kManifestPath with
    | none => simp [InsertApplication, hm] at h
    | some m =>
      cases hs : json.Serialize m with
      | none => simp [InsertApplication, hm, hs] at h
      | some text =>
        cases hp : v.GetString kApplicationPath with
        | none => simp [InsertApplication, hm, hs, hp] at h
        | some p =>
          cases ht : v.GetDouble kInstallTime with
          | none => simp [InsertApplication, hm, hs, hp, ht] at h
          | some tm =>
            cases hh : hasApp id t.applications with
            | true =>
              simp [InsertApplication, hm, hs, hp, ht, runInTransaction, specSql, hh] at h
            | false =>
              refine ⟨rfl, v, m, p, tm, text, rfl, hm, hs, hp, ht, ?_⟩
              simp [InsertApplication, hm, hs, hp, ht, runInTransaction, specSql, hh]

/-- What a successful `Insert` with a single-segment key has done, with the statements of
the specification. -/
theorem Insert_true_single (json : Json) (s : DBStoreSqliteImpl) (key id : String)
    (value : Option Value) (hkey : FormatKeys key = [id])
    (h : (Insert specSql json s key value).1 = true) :
    s.db_initialized = true ∧ hasApp id s.tables.applications = false ∧
    ∃ (v m : Value) (p : String) (tm : Rat) (text : String),
      value = some v ∧ v.Get kManifestPath = some m ∧ json.Serialize m = some text ∧
      v.GetString kApplicationPath = some p ∧ v.GetDouble kInstallTime = some tm ∧
      (Insert specSql json s key value).2 =
        ReportValueChanged
          { s with tables := { s.tables with applications := s.tables.applications ++
            [{ id := id, manifest := text, path := p, install_time := tm }] } }
          key value := by
  cases hi : s.db_initialized with
  | false => simp [Insert, hi] at h
  | true =>
    have hins : Insert specSql json s key value =
        finishWrite s key value (InsertApplication specSql json s.tables id value) := by
      simp [Insert, hi, hkey]
    rw [hins] at h ⊢
    cases hr : (InsertApplication specSql json s.tables id value).1 with
    | false => simp [finishWrite, hr] at h
    | true =>
      obtain ⟨hnew, v, m, p, tm, text, hv, hm, hs, hp, ht, ht2⟩ :=
        InsertApplication_true json s.tables id value hr
      refine ⟨rfl, hnew, v, m, p, tm, text, hv, hm, hs, hp, ht, ?_⟩
      simp [finishWrite, hr, ht2, hi]

/-- No row of an id that has no row passes the filter of the id. -/
theorem filter_of_not_hasApp (id : String) (rows : List AppRow)
    (h : hasApp id rows = false) : rows.filter (fun r => decide (r.id = id)) = [] := by
  simpa [hasApp, List.filter_eq_nil_iff] using h

/-- Claim C2: with the statements of the specification and a serializer that reads back
what it wrote for the manifest, when `Insert` of a record (manifest, string path, numeric
install time) under a single-segment key returns true, `Query` with the same key returns
the record of that manifest, that path and that install time. -/
theorem C2_record_round_trip (json : Json) (s : DBStoreSqliteImpl) (key id : String)
    (v m : Value) (p : String) (tm : Rat)
    (hkey : FormatKeys key = [id])
    (hm : v.Get kManifestPath = some m) (hp : v.GetString kApplicationPath = some p)
    (ht : v.GetDouble kInstallTime = some tm)
    (hround : ∀ text, json.Serialize m = some text → json.Deserialize text = some m)
    (hins : (Insert specSql json s key (some v)).1 = true) :
    (Query specSql json (Insert specSql json s key (some v)).2 key).1 =
      some (record m p tm) := by
  obtain ⟨hinit, hnew, v2, m2, p2, tm2, text, hv, hm2, hs, hp2, ht2, hst⟩ :=
    Insert_true_single json s key id (some v) hkey hins
  simp only [Option.some.injEq] at hv
  subst hv
  rw [hm] at hm2
  rw [hp] at hp2
  rw [ht] at ht2
  simp only [Option.some.injEq] at hm2 hp2 ht2
  subst hm2 hp2 ht2
  have hde := hround text hs
  rw [hst]
  have hrow : rowValue json { id := id, manifest := text, path := p, install_time := tm } =
      some (record m p tm) := rowValue_record json _ m hde
  simp [Query, ReportValueChanged, hinit, hkey, QueryApplication, specSql,
    List.filter_append, filter_of_not_hasApp id _ hnew, queryApplicationLoop, hrow]

/-- Witness of C2: the record of the unit tests under `app1`. -/
theorem C2_record_round_trip_witness :
    (Query specSql testJson (Insert specSql testJson initStore "app1" (some testRecord)).2
      "app1").1 = some (record (Value.dict [("a", Value.string "b")]) "no path" 0) :=
  C2_record_round_trip testJson initStore "app1" "app1" testRecord
    (Value.dict [("a", Value.string "b")]) "no path" 0 (by decide) rfl rfl rfl
    (by
      intro text h
      have ht : text = "a:b" := by
        have h2 : testJson.Serialize (Value.dict [("a", Value.string "b")]) = some "a:b" := rfl
        rw [h2] at h
        exact (Option.some.inj h).symm
      subst ht
      rfl)
    (by decide)

/-- What a successful `UpdateApplication` has done, with the statements of the
specification: the value was a record with a serializable manifest and every row of the id
was overwritten with its columns. -/
theorem UpdateApplication_true (json : Json) (t : Tables) (id : String)
    (value : Option Value) (h : (UpdateApplication specSql json t id value).1 = true) :
    ∃ (v m : Value) (p : String) (tm : Rat) (text : String),
      value = some v ∧ v.Get kManifestPath = some m ∧ json.Serialize m = some text ∧
      v.GetString kApplicationPath = some p ∧ v.GetDouble kInstallTime = some tm ∧
      (UpdateApplication specSql json t id value).2 =
        { t with applications := t.applications.map (fun r =>
          if r.id = id then
            { id := id, manifest := text, path := p, install_time := tm }
          else r) } := by
  cases value with
  | none => simp [UpdateApplication] at h
  | some v =>
    cases hm : v.Get kManifestPath with
    | none => simp [UpdateApplication, hm] at h
    | some m =>
      cases hs : json.Serialize m with
      | none => simp [UpdateApplication, hm, hs] at h
      | some text =>
        cases hp : v.GetString kApplicationPath with
        | none => simp [UpdateApplication, hm, hs, hp] at h
        | some p =>
          cases ht : v.GetDouble kInstallTime with
          | none => simp [UpdateApplication, hm, hs, hp, ht] at h
          | some tm =>
            cases hh : hasApp id t.applications with
            | false =>
              simp [UpdateApplication, hm, hs, hp, ht, runInTransaction, specSql, hh] at h
            | true =>
              refine ⟨v, m, p, tm, text, rfl, hm, hs, hp, ht, ?_⟩
              simp [UpdateApplication, hm, hs, hp, ht, runInTransaction, specSql, hh]

/-- Overwriting the rows of an id leaves rows of other ids as they are. -/
theorem map_replace_of_not_hasApp (id : String) (row : AppRow) (rows : List AppRow)
    (h : hasApp id rows = false) :
    rows.map (fun r => if r.id = id then row else r) = rows := by
  have h2 : ∀ r ∈ rows, r.id ≠ id := by simpa [hasApp] using h
  conv_rhs => rw [← List.map_id rows]
  apply List.map_congr_left
  intro r hr
  simp [h2 r hr]

/-- What a successful `Update` with a single-segment key has done, with the statements of
the specification. -/
theorem Update_true_single (json : Json) (s : DBStoreSqliteImpl) (key id : String)
    (value : Option Value) (hkey : FormatKeys key = [id])
    (h : (Update specSql json s key value).1 = true) :
    s.db_initialized = true ∧
    ∃ (v m : Value) (p : String) (tm : Rat) (text : String),
      value = some v ∧ v.Get kManifestPath = some m ∧ json.Serialize m = some text ∧
      v.GetString kApplicationPath = some p ∧ v.GetDouble kInstallTime = some tm ∧
      (Update specSql json s key value).2.db_initialized = true ∧
      (Update specSql json s key value).2.tables.applications =
        s.tables.applications.map (fun r =>
          if r.id = id then
            { id := id, manifest := text, path := p, install_time := tm }
          else r) := by
  cases hi : s.db_initialized with
  | false => simp [Update, hi] at h
  | true =>
    have hupd : Update specSql json s key value =
        finishWrite s key value (UpdateApplication specSql json s.tables id value) := by
      simp [Update, hi, hkey]
    rw [hupd] at h ⊢
    cases hr : (UpdateApplication specSql json s.tables id value).1 with
    | false => simp [finishWrite, hr] at h
    | true =>
      obtain ⟨v, m, p, tm, text, hv, hm, hs, hp, ht, ht2⟩ :=
        UpdateApplication_true json s.tables id value hr
      refine ⟨rfl, v, m, p, tm, text, hv, hm, hs, hp, ht, ?_, ?_⟩
      · simp [finishWrite, hr, ReportValueChanged, hi]
      · simp [finishWrite, hr, ReportValueChanged, ht2]

/-- Claim C3: with the statements of the specification, on an initialised store whose rows
are as the key router writes them, after a successful `Insert` under a single-segment key
and a successful `Update` under the same key with a record (manifest, path, install time)
whose manifest the serializer reads back, `Query("")` returns a dictionary whose entry for
the id is the record of the update: its manifest, its path and its install time. -/
theorem C3_update_overwrites (json : Json) (s : DBStoreSqliteImpl) (key id : String)
    (v v2 m2 : Value) (p2 : String) (tm2 : Rat)
    (hok : TablesOk json s.tables) (hkey : FormatKeys key = [id])
    (hm : v2.Get kManifestPath = some m2) (hp : v2.GetString kApplicationPath = some p2)
    (ht : v2.GetDouble kInstallTime = some tm2)
    (hround : ∀ text, json.Serialize m2 = some text → json.Deserialize text = some m2)
    (hins : (Insert specSql json s key (some v)).1 = true)
    (hupd : (Update specSql json (Insert specSql json s key (some v)).2 key (some v2)).1
      = true) :
    ∃ d, (Query specSql json
        (Update specSql json (Insert specSql json s key (some v)).2 key (some v2)).2 "").1
          = some (Value.dict d) ∧
      (Value.dict d).Get id = some (record m2 p2 tm2) := by
  obtain ⟨_, hnew, v1, m1, p1, tm1, text1, _, _, _, _, _, hst⟩ :=
    Insert_true_single json s key id (some v) hkey hins
  have h1apps : (Insert specSql json s key (some v)).2.tables.applications =
      s.tables.applications ++
        [{ id := id, manifest := text1, path := p1, install_time := tm1 }] := by
    rw [hst]
    rfl
  obtain ⟨_, w, m, p, tm, text, hw, hm', hs, hp', ht', h2init, h2apps⟩ :=
    Update_true_single json _ key id (some v2) hkey hupd
  simp only [Option.some.injEq] at hw
  subst hw
  rw [hm] at hm'
  rw [hp] at hp'
  rw [ht] at ht'
  simp only [Option.some.injEq] at hm' hp' ht'
  subst hm' hp' ht'
  have hde := hround text hs
  have hdot := FormatKeys_single_no_dot key id hkey
  rw [h1apps] at h2apps
  simp only [List.map_append, map_replace_of_not_hasApp id _ _ hnew, List.map_cons,
    List.map_nil, if_true] at h2apps
  have hok2 : TablesOk json
      (Update specSql json (Insert specSql json s key (some v)).2 key (some v2)).2.tables := by
    intro r hr2
    rw [h2apps] at hr2
    simp only [List.mem_append, List.mem_singleton] at hr2
    rcases hr2 with hr2 | hr2
    · exact hok r hr2
    · subst hr2
      exact ⟨hdot, by simp [hde]⟩
  obtain ⟨d, hd, hget⟩ := Query_all_get json _ h2init hok2
  refine ⟨d, hd, ?_⟩
  rw [Get_no_dot d id hdot, hget id, h2apps]
  have hl := lastValue_append_same json
    { id := id, manifest := text, path := p2, install_time := tm2 }
    s.tables.applications none
  simp only at hl
  rw [hl]
  exact rowValue_record json _ m2 hde

/-- Witness of C3: the update of the unit test `DBUpdate`. -/
theorem C3_update_overwrites_witness :
    ∃ d, (Query specSql testJson
        (Update specSql testJson
          (Insert specSql testJson initStore "test_id"
            (some (record (Value.dict [("a", Value.string "b")]) "path1" 0))).2
          "test_id" (some (record (Value.dict [("a", Value.string "c")]) "path2" 1))).2 "").1
          = some (Value.dict d) ∧
      (Value.dict d).Get "test_id" =
        some (record (Value.dict [("a", Value.string "c")]) "path2" 1) :=
  C3_update_overwrites testJson initStore "test_id" "test_id"
    (record (Value.dict [("a", Value.string "b")]) "path1" 0)
    (record (Value.dict [("a", Value.string "c")]) "path2" 1)
    (Value.dict [("a", Value.string "c")]) "path2" 1
    (by intro r hr; simp [initStore, InitDB, okEnv, DBStoreSqliteImpl.create, initFinish,
      emptyTables] at hr)
    (by decide) rfl rfl rfl
    (by
      intro text h
      have ht : text = "a:c" := by
        have h2 : testJson.Serialize (Value.dict [("a", Value.string "c")]) = some "a:c" := rfl
        rw [h2] at h
        exact (Option.some.inj h).symm
      subst ht
      rfl)
    (by decide) (by decide)

/-- Removing the rows of one id does not change the value left under another key. -/
theorem lastValue_withoutApp_other (json : Json) (id k : String) (hk : k ≠ id) :
    ∀ (rows : List AppRow) (cur : Option Value),
      lastValue json (withoutApp id rows) k cur = lastValue json rows k cur
  | [], _ => rfl
  | r :: rs, cur => by
    by_cases hr : r.id = id
    · have hkr : k ≠ r.id := by rw [hr]; exact hk
      have hw : withoutApp id (r :: rs) = withoutApp id rs := by
        simp [withoutApp, hr]
      rw [hw, lastValue_withoutApp_other json id k hk rs cur]
      simp [lastValue, hkr]
    · have hw : withoutApp id (r :: rs) = r :: withoutApp id rs := by
        simp [withoutApp, hr]
      rw [hw]
      simp only [lastValue]
      exact lastValue_withoutApp_other json id k hk rs _

/-- The rows of an id among the rows left after removing those of another id. -/
theorem filter_withoutApp_other (id id2 : String) (h : id2 ≠ id) (rows : List AppRow) :
    (withoutApp id rows).filter (fun r => decide (r.id = id2)) =
      rows.filter (fun r => decide (r.id = id2)) := by
  unfold withoutApp
  rw [List.filter_filter]
  apply List.filter_congr
  intro r _
  by_cases hr : r.id = id2
  · simp [hr, h]
  · simp [hr]

/-- What `Delete` of a single-segment id that has a row does, with the statements of the
specification. -/
theorem Delete_single_present (s : DBStoreSqliteImpl) (key id : String)
    (hinit : s.db_initialized = true) (hkey : FormatKeys key = [id])
    (hhas : hasApp id s.tables.applications = true) :
    (Delete specSql s key).1 = true ∧ (Delete specSql s key).2.db_initialized = true ∧
    (Delete specSql s key).2.tables.applications = withoutApp id s.tables.applications := by
  have hd : Delete specSql s key =
      (true, ReportValueChanged
        { s with tables :=
          { s.tables with applications := withoutApp id s.tables.applications } }
        key none) := by
    simp [Delete, hinit, hkey, DeleteApplication, runInTransaction, specSql, hhas, finishWrite]
  rw [hd]
  exact ⟨rfl, hinit, rfl⟩

/-- `Query` of a single-segment id on an initialised store, with the statements of the
specification: the loop over the rows of that id. -/
theorem Query_single (json : Json) (s : DBStoreSqliteImpl) (key id : String)
    (hinit : s.db_initialized = true) (hkey : FormatKeys key = [id]) :
    (Query specSql json s key).1 =
      queryApplicationLoop json
        (s.tables.applications.filter (fun r => decide (r.id = id))) none := by
  simp [Query, hinit, hkey, QueryApplication, specSql]

/-- Claim C5, amended: with the statements of the specification, on an initialised store
none of whose stored ids contains a dot (and whose manifests deserialize), that is whose
rows are as the key router writes them, `Delete` of a single-segment id that has a row returns
true; afterwards `Query` of that id returns null, `Query("")` returns a dictionary with no
entry for the id and with every other entry as `Query("")` gave it before, and `Query` of
every other single-segment id returns what it returned before. -/
theorem C5_delete_removes (json : Json) (s : DBStoreSqliteImpl) (key id : String)
    (hinit : s.db_initialized = true) (hok : TablesOk json s.tables)
    (hkey : FormatKeys key = [id]) (hhas : hasApp id s.tables.applications = true) :
    (Delete specSql s key).1 = true ∧
    (Query specSql json (Delete specSql s key).2 key).1 = none ∧
    (∃ d, (Query specSql json (Delete specSql s key).2 "").1 = some (Value.dict d) ∧
      (Value.dict d).Get id = none ∧
      ∀ d0, (Query specSql json s "").1 = some (Value.dict d0) →
        ∀ k, k ≠ id → GetWithoutPathExpansion d k = GetWithoutPathExpansion d0 k) ∧
    (∀ key2 id2 : String, FormatKeys key2 = [id2] → id2 ≠ id →
      (Query specSql json (Delete specSql s key).2 key2).1 = (Query specSql json s key2).1) := by
  obtain ⟨hret, hinit2, happs⟩ := Delete_single_present s key id hinit hkey hhas
  have hdot := FormatKeys_single_no_dot key id hkey
  have hok2 : TablesOk json (Delete specSql s key).2.tables := by
    intro r hr
    rw [happs] at hr
    exact hok r (List.mem_of_mem_filter hr)
  refine ⟨hret, ?_, ?_, ?_⟩
  · rw [Query_single json _ key id hinit2 hkey, happs,
      filter_of_not_hasApp id _ (hasApp_withoutApp id _)]
    rfl
  · obtain ⟨d, hd, hget⟩ := Query_all_get json _ hinit2 hok2
    obtain ⟨d1, hd1, hget1⟩ := Query_all_get json s hinit hok
    refine ⟨d, hd, ?_, ?_⟩
    · rw [Get_no_dot d id hdot, hget id, happs]
      apply lastValue_of_not_mem
      intro r hr
      have := (List.mem_filter.mp hr).2
      simpa using this
    · intro d0 hd0 k hk
      rw [hd1] at hd0
      simp only [Option.some.injEq, Value.dict.injEq] at hd0
      subst hd0
      rw [hget k, hget1 k, happs]
      exact lastValue_withoutApp_other json id k hk _ none
  · intro key2 id2 hkey2 hne
    rw [Query_single json _ key2 id2 hinit2 hkey2, Query_single json s key2 id2 hinit hkey2,
      happs, filter_withoutApp_other id id2 hne]

/-- Witness of C5: deleting `app1` from the store that holds it. -/
theorem C5_delete_removes_witness :
    (Delete specSql storeWithApp1 "app1").1 = true ∧
    (Query specSql testJson (Delete specSql storeWithApp1 "app1").2 "app1").1 = none :=
  have h := C5_delete_removes testJson storeWithApp1 "app1" "app1" (by decide)
    (by
      intro r hr
      have hr2 : r = { id := "app1", manifest := "a:b", path := "no path", install_time := 0 } := by
        simpa [storeWithApp1, initStore, InitDB, okEnv, DBStoreSqliteImpl.create, initFinish,
          emptyTables, Insert, FormatKeys, SplitString, rawSplit, TrimWhitespace,
          isWhitespaceASCII, finishWrite, InsertApplication, testRecord, record, Value.Get,
          Value.GetString, Value.GetDouble, pathSegments, getSegments, GetWithoutPathExpansion,
          kManifestPath, kApplicationPath, kInstallTime, testJson, runInTransaction, specSql,
          hasApp, ReportValueChanged] using hr
      subst hr2
      exact ⟨by decide, rfl⟩)
    (by decide) (by decide)
  ⟨h.1, h.2.1⟩

/-- A successful sequence of inserts under single-segment keys, with the statements of the
specification and a serializer that reads back the manifests it wrote: every inserted id
had no row before, its row now yields its record, and the value left under every other key
is the one the rows left before. -/
theorem InsertAll_rows (json : Json) :
    ∀ (entries : List (String × Value)) (s : DBStoreSqliteImpl),
      s.db_initialized = true → TablesOk json s.tables →
      (∀ e ∈ entries, ∃ id, FormatKeys e.1 = [id]) →
      (∀ e ∈ entries, ∀ m text, e.2.Get kManifestPath = some m →
        json.Serialize m = some text → json.Deserialize text = some m) →
      (InsertAll specSql json entries s).1 = true →
      (InsertAll specSql json entries s).2.db_initialized = true ∧
      TablesOk json (InsertAll specSql json entries s).2.tables ∧
      (∀ e ∈ entries, ∀ id, FormatKeys e.1 = [id] →
        hasApp id s.tables.applications = false ∧
        ∃ (m : Value) (p : String) (tm : Rat),
          e.2.Get kManifestPath = some m ∧ e.2.GetString kApplicationPath = some p ∧
          e.2.GetDouble kInstallTime = some tm ∧
          lastValue json (InsertAll specSql json entries s).2.tables.applications id none =
            some (record m p tm)) ∧
      (∀ k, (∀ e ∈ entries, FormatKeys e.1 ≠ [k]) →
        lastValue json (InsertAll specSql json entries s).2.tables.applications k none =
          lastValue json s.tables.applications k none) := by
  intro entries
  induction entries with
  | nil =>
    intro s hinit hok _ _ _
    refine ⟨hinit, hok, ?_, ?_⟩
    · intro e he
      simp at he
    · intro k _
      rfl
  | cons e rest ih =>
    intro s hinit hok hsingle hround hall
    obtain ⟨key, value⟩ := e
    obtain ⟨id, hkey⟩ := hsingle (key, value) (List.mem_cons_self _ _)
    simp only at hkey
    cases hr : (Insert specSql json s key (some value)).1 with
    | false =>
      have hst : Insert specSql json s key (some value) =
          (false, (Insert specSql json s key (some value)).2) := by
        rw [← hr]
      rw [InsertAll, hst] at hall
      simp at hall
    | true =>
      have hst : Insert specSql json s key (some value) =
          (true, (Insert specSql json s key (some value)).2) := by
        rw [← hr]
      have hstep : InsertAll specSql json ((key, value) :: rest) s =
          InsertAll specSql json rest (Insert specSql json s key (some value)).2 := by
        rw [InsertAll, hst]
      rw [hstep] at hall ⊢
      obtain ⟨_, hnew, v, m, p, tm, text, hv, hm, hs, hp, ht, hs2⟩ :=
        Insert_true_single json s key id (some value) hkey hr
      simp only [Option.some.injEq] at hv
      subst hv
      have hde := hround (key, value) (List.mem_cons_self _ _) m text hm hs
      have hdot := FormatKeys_single_no_dot key id hkey
      have h2init : (Insert specSql json s key (some value)).2.db_initialized = true := by
        rw [hs2]
        exact hinit
      have h2apps : (Insert specSql json s key (some value)).2.tables.applications =
          s.tables.applications ++
            [{ id := id, manifest := text, path := p, install_time := tm }] := by
        rw [hs2]
        rfl
      have h2ok : TablesOk json (Insert specSql json s key (some value)).2.tables := by
        intro r hr2
        rw [h2apps] at hr2
        simp only [List.mem_append, List.mem_singleton] at hr2
        rcases hr2 with hr2 | hr2
        · exact hok r hr2
        · subst hr2
          exact ⟨hdot, by simp [hde]⟩
      obtain ⟨h3init, h3ok, h3in, h3out⟩ := ih _ h2init h2ok
        (fun x hx => hsingle x (List.mem_cons_of_mem _ hx))
        (fun x hx => hround x (List.mem_cons_of_mem _ hx)) hall
      have hrest_ne : ∀ x ∈ rest, FormatKeys x.1 ≠ [id] := by
        intro x hx hxk
        have := (h3in x hx id hxk).1
        rw [h2apps, hasApp_append] at this
        simp at this
      refine ⟨h3init, h3ok, ?_, ?_⟩
      · intro x hx id2 hxk
        simp only [List.mem_cons] at hx
        rcases hx with hx | hx
        · subst hx
          simp only at hxk
          rw [hkey] at hxk
          simp only [List.cons.injEq, and_true] at hxk
          subst hxk
          refine ⟨hnew, m, p, tm, hm, hp, ht, ?_⟩
          rw [h3out id hrest_ne, h2apps]
          have hl := lastValue_append_same json
            { id := id, manifest := text, path := p, install_time := tm }
            s.tables.applications none
          simp only at hl
          rw [hl]
          exact rowValue_record json _ m hde
        · obtain ⟨hn, m2, p2, tm2, hm2, hp2, ht2, hl2⟩ := h3in x hx id2 hxk
          rw [h2apps, hasApp_append] at hn
          simp only [Bool.or_eq_false_iff] at hn
          exact ⟨hn.1, m2, p2, tm2, hm2, hp2, ht2, hl2⟩
      · intro k hk
        have hk1 : FormatKeys key ≠ [k] := hk (key, value) (List.mem_cons_self _ _)
        have hkid : k ≠ id := by
          intro e
          apply hk1
          rw [hkey, e]
        rw [h3out k (fun x hx => hk x (List.mem_cons_of_mem _ hx)), h2apps]
        exact lastValue_append_other json _ k hkid _ none

/-- Claim C4: with the statements of the specification, on an initialised store with an
empty applications table, after a sequence of `Insert` calls under single-segment keys that
all return true (which makes their ids pairwise distinct), with records whose manifests the
serializer reads back, `Query("")` returns a dictionary that holds under each inserted id
the record inserted for it and holds no entry under any other key. -/
theorem C4_query_all_exact (json : Json) (entries : List (String × Value))
    (s : DBStoreSqliteImpl) (hinit : s.db_initialized = true)
    (hempty : s.tables.applications = [])
    (hsingle : ∀ e ∈ entries, ∃ id, FormatKeys e.1 = [id])
    (hround : ∀ e ∈ entries, ∀ m text, e.2.Get kManifestPath = some m →
      json.Serialize m = some text → json.Deserialize text = some m)
    (hall : (InsertAll specSql json entries s).1 = true) :
    ∃ d, (Query specSql json (InsertAll specSql json entries s).2 "").1
        = some (Value.dict d) ∧
      (∀ e ∈ entries, ∀ id, FormatKeys e.1 = [id] →
        ∃ (m : Value) (p : String) (tm : Rat),
          e.2.Get kManifestPath = some m ∧ e.2.GetString kApplicationPath = some p ∧
          e.2.GetDouble kInstallTime = some tm ∧
          (Value.dict d).Get id = some (record m p tm)) ∧
      (∀ k, (∀ e ∈ entries, FormatKeys e.1 ≠ [k]) → GetWithoutPathExpansion d k = none) := by
  have hok : TablesOk json s.tables := by
    intro r hr
    rw [hempty] at hr
    simp at hr
  obtain ⟨h3init, h3ok, h3in, h3out⟩ := InsertAll_rows json entries s hinit hok hsingle hround hall
  obtain ⟨d, hd, hget⟩ := Query_all_get json _ h3init h3ok
  refine ⟨d, hd, ?_, ?_⟩
  · intro e he id hk
    obtain ⟨_, m, p, tm, hm, hp, ht, hl⟩ := h3in e he id hk
    refine ⟨m, p, tm, hm, hp, ht, ?_⟩
    rw [Get_no_dot d id (FormatKeys_single_no_dot e.1 id hk), hget id, hl]
  · intro k hk
    rw [hget k, h3out k hk, hempty]
    rfl

/-- The test serializer reads back every manifest it writes. -/
theorem testJson_round (m : Value) (text : String) (h : testJson.Serialize m = some text) :
    testJson.Deserialize text = some m := by
  unfold testJson at h ⊢
  simp only at h ⊢
  split at h
  · rename_i k x
    split at h
    · rename_i hkx
      obtain ⟨hk, hx⟩ := hkx
      subst hk hx
      simp only [Option.some.injEq] at h
      subst h
      rfl
    · split at h
      · rename_i hkx
        obtain ⟨hk, hx⟩ := hkx
        subst hk hx
        simp only [Option.some.injEq] at h
        subst h
        rfl
      · simp at h
  · simp at h

/-- Witness of C4: the three ids a, b and c, each with the record of the unit tests. -/
theorem C4_query_all_exact_witness :
    ∃ d, (Query specSql testJson
        (InsertAll specSql testJson
          [("a", testRecord), ("b", testRecord), ("c", testRecord)] initStore).2 "").1
        = some (Value.dict d) ∧
      (∀ e ∈ [("a", testRecord), ("b", testRecord), ("c", testRecord)], ∀ id,
        FormatKeys e.1 = [id] →
        ∃ (m : Value) (p : String) (tm : Rat),
          e.2.Get kManifestPath = some m ∧ e.2.GetString kApplicationPath = some p ∧
          e.2.GetDouble kInstallTime = some tm ∧
          (Value.dict d).Get id = some (record m p tm)) ∧
      (∀ k, (∀ e ∈ [("a", testRecord), ("b", testRecord), ("c", testRecord)],
        FormatKeys e.1 ≠ [k]) → GetWithoutPathExpansion d k = none) :=
  C4_query_all_exact testJson [("a", testRecord), ("b", testRecord), ("c", testRecord)]
    initStore (by decide) rfl
    (by
      intro e he
      simp only [List.mem_cons, List.mem_singleton, List.mem_nil_iff, or_false] at he
      rcases he with he | he | he <;> subst he
      · exact ⟨"a", by decide⟩
      · exact ⟨"b", by decide⟩
      · exact ⟨"c", by decide⟩)
    (fun _ _ m text _ h => testJson_round m text h)
    (by decide)

/-- Claim C21: on a store whose `db_initialized_` is false, `Insert`, `Update` and `Delete`
return false and `Query` returns null for every key and value, each leaving the state,
tables and call log, as it was; a store is in that condition when it comes from the
constructor, and it stays in it after every `InitDB` that returns false. -/
theorem C21_uninitialised_accepts_nothing (sql : Sql) (json : Json) (s : DBStoreSqliteImpl)
    (key : String) (value : Option Value) (h : s.db_initialized = false) :
    (Insert sql json s key value = (false, s) ∧ Update sql json s key value = (false, s) ∧
      Delete sql s key = (false, s) ∧ Query sql json s key = (none, s)) ∧
    (∀ env : InitEnv, (InitDB sql json env s).1 = false →
      (InitDB sql json env s).2.db_initialized = false ∧
      Insert sql json (InitDB sql json env s).2 key value = (false, (InitDB sql json env s).2) ∧
      Update sql json (InitDB sql json env s).2 key value = (false, (InitDB sql json env s).2) ∧
      Delete sql (InitDB sql json env s).2 key = (false, (InitDB sql json env s).2) ∧
      Query sql json (InitDB sql json env s).2 key = (none, (InitDB sql json env s).2)) ∧
    (∀ (db_file : Bool) (tables : Tables) (v0_file : Option String),
      (DBStoreSqliteImpl.create db_file tables v0_file).db_initialized = false) := by
  refine ⟨uninitialised_refuses sql json s h key value, ?_, fun _ _ _ => rfl⟩
  intro env hret
  have h2 : (InitDB sql json env s).2.db_initialized = false :=
    (InitDB_false_frame sql json env s hret).1.trans h
  exact ⟨h2, uninitialised_refuses sql json _ h2 key value⟩

/-- Witness of C21: a store with one observer on which `InitDB` was never called, and the
same store after an `InitDB` whose `Open` failed. -/
theorem C21_uninitialised_accepts_nothing_witness :
    Insert specSql testJson
        ((DBStoreSqliteImpl.create false emptyTables none).AddObserver 7) "app1"
        (some testRecord)
      = (false, (DBStoreSqliteImpl.create false emptyTables none).AddObserver 7) ∧
    (Query specSql testJson
      (InitDB specSql testJson { okEnv with Open := false }
        ((DBStoreSqliteImpl.create false emptyTables none).AddObserver 7)).2 "app1").1
      = none :=
  have h := C21_uninitialised_accepts_nothing specSql testJson
    ((DBStoreSqliteImpl.create false emptyTables none).AddObserver 7) "app1"
    (some testRecord) rfl
  ⟨h.1.1, congrArg Prod.fst (h.2.1 { okEnv with Open := false } (by decide)).2.2.2.2⟩

/-- Claim C22 (what the code does): `ApplicationStorage::SetApplicationEvents` returns
false, leaving the storage as it was, exactly for the ids that are installed, and
dereferences a null pointer for the ids that are not. With `app1` installed with no events
and a backend that would succeed, setting its events to `resume` returns false and
`GetApplicationEvents(app1)` still returns no event. -/
theorem C22_set_events_rejects_installed :
    (∀ (impl : ApplicationStorageImpl) (st : ApplicationStorage) (id : String)
        (events : List String) (application : ApplicationData),
        st.GetApplicationByID id = some application →
        st.SetApplicationEvents impl id events = some (false, st)) ∧
    (∀ (impl : ApplicationStorageImpl) (st : ApplicationStorage) (id : String)
        (events : List String),
        st.GetApplicationByID id = none → st.SetApplicationEvents impl id events = none) ∧
    storageWithApp1.SetApplicationEvents succeedingImpl "app1" ["resume"] =
      some (false, storageWithApp1) ∧
    storageWithApp1.GetApplicationEvents "app1" = [] ∧
    (storageWithApp1.SetApplicationEvents succeedingImpl "app2" ["resume"]).isNone = true := by
  refine ⟨?_, ?_, rfl, by decide, by decide⟩
  · intro impl st id events application h
    simp [ApplicationStorage.SetApplicationEvents, h]
  · intro impl st id events h
    simp [ApplicationStorage.SetApplicationEvents, h, setEventsThrough]

/-- The migration loop stops at the first entry whose insert fails, with the tables the
entries before it left. -/
theorem upgradeLoop_stops (sql : Sql) (json : Json) (k : String) (v : Value)
    (post : List (String × Value)) :
    ∀ (pre : List (String × Value)) (t0 t : Tables),
      upgradeLoop sql json pre t0 = (true, t) →
      (InsertApplication sql json t k (some v)).1 = false →
      upgradeLoop sql json (pre ++ (k, v) :: post) t0 = (false, t) := by
  intro pre
  induction pre with
  | nil =>
    intro t0 t h hins
    simp only [upgradeLoop, Prod.mk.injEq, true_and] at h
    subst h
    have h2 := InsertApplication_false sql json t0 k (some v) hins
    simp only [List.nil_append, upgradeLoop]
    split
    · rename_i t2 heq
      rw [heq] at hins
      simp at hins
    · rename_i t2 heq
      rw [heq] at h2
      simp only at h2
      rw [h2]
  | cons e rest ih =>
    intro t0 t h hins
    obtain ⟨k1, v1⟩ := e
    simp only [List.cons_append, upgradeLoop] at h ⊢
    split
    · rename_i t2 heq
      rw [heq] at h
      exact ih t2 t h hins
    · rename_i t2 heq
      rw [heq] at h
      simp at h

/-- Rows that match the entries of a document carry its ids, in order. -/
theorem rows_ids (json : Json) :
    ∀ (rows : List AppRow) (D : List (String × Value)),
      List.Forall₂ (fun r e => r.id = e.1 ∧ rowValue json r = some e.2) rows D →
      rows.map (fun r => r.id) = D.map (fun e => e.1) := by
  intro rows D h
  induction h with
  | nil => rfl
  | cons hhead _ ih => simp [hhead.1, ih]

/-- Counterexample to C5 as stated: on the store that migrated the id `a.b` and then
inserted `a`, the id `a` has a stored record and `Delete(a)` returns true, after which
`Query(a)` returns null, but `Query("")` still has the key `a` (holding the record of
`a.b` under `b`). -/
theorem C5_dotted_id_counterexample :
    (InitDB specSql testJson okEnv
      (DBStoreSqliteImpl.create false emptyTables (some "a.b: (a:b, path, 0.0)"))).1 = true ∧
    (Insert specSql testJson migratedDotted "a" (some testRecord)).1 = true ∧
    migratedDottedWithA.db_initialized = true ∧
    FormatKeys "a" = ["a"] ∧
    hasApp "a" migratedDottedWithA.tables.applications = true ∧
    (Delete specSql migratedDottedWithA "a").1 = true ∧
    (Query specSql testJson (Delete specSql migratedDottedWithA "a").2 "a").1 = none ∧
    (Query specSql testJson (Delete specSql migratedDottedWithA "a").2 "").1 =
      some (Value.dict
        [("a", Value.dict
          [("b", record (Value.dict [("a", Value.string "b")]) "path" 0)])]) ∧
    ((Query specSql testJson (Delete specSql migratedDottedWithA "a").2 "").1.bind
      (fun q => q.Get "a")).isSome = true := by
  refine ⟨by decide, by decide, by decide, by decide, by decide, by decide, rfl, rfl, rfl⟩

/-- Counterexample to C12 as stated: on the store that migrated the id `a.b` and then
inserted `a`, both with success, the applications table holds the two rows `a.b` and `a`,
but `Query("")` returns a dictionary with the single entry `a`, in which the record stored
under `a.b` is found neither as a key nor as a path. -/
theorem C12_dotted_id_counterexample :
    migratedDottedWithA.db_initialized = true ∧
    migratedDottedWithA.tables.applications.map (fun r => r.id) = ["a.b", "a"] ∧
    (Query specSql testJson migratedDottedWithA "").1 = some (Value.dict [("a", testRecord)]) ∧
    GetWithoutPathExpansion [("a", testRecord)] "a.b" = none ∧
    (Value.dict [("a", testRecord)]).Get "a.b" = none := by
  refine ⟨by decide, by decide, rfl, rfl, rfl⟩

/-- A value left under a key comes from the starting value or from a row of that id. -/
theorem lastValue_some (json : Json) (k : String) (v : Value) :
    ∀ (rows : List AppRow) (cur : Option Value), lastValue json rows k cur = some v →
      cur = some v ∨ ∃ r ∈ rows, r.id = k ∧ rowValue json r = some v
  | [], cur, h => Or.inl h
  | r :: rs, cur, h => by
    simp only [lastValue] at h
    rcases lastValue_some json k v rs _ h with h1 | ⟨x, hx, hid, hv⟩
    · by_cases hk : k = r.id
      · simp only [hk, if_true] at h1
        exact Or.inr ⟨r, List.mem_cons_self _ _, hk.symm, h1⟩
      · simp only [hk, if_false] at h1
        exact Or.inl h1
    · exact Or.inr ⟨x, List.mem_cons_of_mem _ hx, hid, hv⟩

/-- Rows with readable manifests leave a value under the id of each of them. -/
theorem lastValue_isSome (json : Json) (k : String) :
    ∀ (rows : List AppRow) (cur : Option Value),
      (∀ r ∈ rows, (json.Deserialize r.manifest).isSome = true) →
      (cur.isSome = true ∨ ∃ r ∈ rows, r.id = k) →
      (lastValue json rows k cur).isSome = true
  | [], cur, _, h => by
    rcases h with h | ⟨r, hr, _⟩
    · exact h
    · simp at hr
  | r :: rs, cur, hde, h => by
    simp only [lastValue]
    apply lastValue_isSome json k rs _ (fun x hx => hde x (List.mem_cons_of_mem _ hx))
    obtain ⟨m, hm⟩ := Option.isSome_iff_exists.mp (hde r (List.mem_cons_self _ _))
    have hv := rowValue_record json r m hm
    by_cases hk : k = r.id
    · left
      simp [hk, hv]
    · rcases h with h | ⟨x, hx, hid⟩
      · left
        simp [hk, h]
      · simp only [List.mem_cons] at hx
        rcases hx with hx | hx
        · subst hx
          exact absurd hid.symm hk
        · exact Or.inr ⟨x, hx, hid⟩

/-- Claim C12, amended: on an initialised store `Insert`, `Update` and `Delete` with the
empty key return false and leave the state as it was, whereas `Query` with the empty key
returns the whole collection whenever no stored id contains a dot (and the statement is
valid over rows whose manifests deserialize): a non-null dictionary that has an entry under
the id of every stored row, every entry of which is the record of a stored row of that id,
and that is empty when no row is stored; the state is left as it was. -/
theorem C12_empty_key (sql : Sql) (json : Json) (s : DBStoreSqliteImpl)
    (value : Option Value) (rows : List AppRow)
    (hinit : s.db_initialized = true)
    (hrows : sql.kGetInstalledApplicationsOp s.tables = some rows)
    (hok : ∀ r ∈ rows, '.' ∉ r.id.data ∧ (json.Deserialize r.manifest).isSome = true) :
    Insert sql json s "" value = (false, s) ∧
    Update sql json s "" value = (false, s) ∧
    Delete sql s "" = (false, s) ∧
    ∃ d, Query sql json s "" = (some (Value.dict d), s) ∧
      (∀ r ∈ rows, (GetWithoutPathExpansion d r.id).isSome = true) ∧
      (∀ k v, GetWithoutPathExpansion d k = some v →
        ∃ r ∈ rows, r.id = k ∧ rowValue json r = some v) ∧
      (rows = [] → d = []) := by
  refine ⟨?_, ?_, ?_, ?_⟩
  · simp [Insert, hinit, FormatKeys_empty]
  · simp [Update, hinit, FormatKeys_empty]
  · simp [Delete, hinit, FormatKeys_empty]
  · obtain ⟨d, hd, hget⟩ := queryInstalledLoop_get json rows [] hok
    refine ⟨d, ?_, ?_, ?_, ?_⟩
    · simp [Query, hinit, FormatKeys_empty, QueryInstalledApplications, hrows, hd]
    · intro r hr
      rw [hget r.id]
      exact lastValue_isSome json r.id rows _ (fun x hx => (hok x hx).2)
        (Or.inr ⟨r, hr, rfl⟩)
    · intro k v hkv
      rw [hget k] at hkv
      rcases lastValue_some json k v rows _ hkv with h | h
      · simp [GetWithoutPathExpansion] at h
      · exact h
    · intro hnil
      subst hnil
      simp only [queryInstalledLoop, Option.some.injEq, Value.dict.injEq] at hd
      exact hd.symm

/-- Witness of the amended C12: the store that holds the record of `app1`. -/
theorem C12_empty_key_witness :
    Insert specSql testJson storeWithApp1 "" (some testRecord) = (false, storeWithApp1) ∧
    ∃ d, Query specSql testJson storeWithApp1 "" = (some (Value.dict d), storeWithApp1) ∧
      (GetWithoutPathExpansion d "app1").isSome = true :=
  have h := C12_empty_key specSql testJson storeWithApp1 (some testRecord)
    [{ id := "app1", manifest := "a:b", path := "no path", install_time := 0 }]
    (by decide) rfl
    (by
      intro r hr
      simp only [List.mem_singleton] at hr
      subst hr
      exact ⟨by decide, rfl⟩)
  ⟨h.1, h.2.2.2.imp (fun _ hd => ⟨hd.1, hd.2.1 _ (List.mem_singleton.mpr rfl)⟩)⟩

/-- The traced transaction body returns what `runInTransaction` returns. -/
theorem runInTransactionTraced_result (sql : Sql) (t : Tables)
    (stmt : Tables → Option Tables) :
    (runInTransactionTraced sql t stmt).1 = runInTransaction sql t stmt := by
  unfold runInTransactionTraced runInTransaction
  cases sql.Begin t
  · rfl
  · cases stmt t with
    | none => rfl
    | some t2 =>
      simp only [if_true]
      cases sql.Commit t2 <;> rfl

/-- The traced `InsertApplication` returns what `InsertApplication` returns. -/
theorem InsertApplicationTraced_result (sql : Sql) (json : Json) (t : Tables) (id : String)
    (value : Option Value) :
    (InsertApplicationTraced sql json t id value).1 = InsertApplication sql json t id value := by
  unfold InsertApplicationTraced InsertApplication
  cases value with
  | none => rfl
  | some v =>
    simp only
    cases (v.Get kManifestPath).bind json.Serialize with
    | none => rfl
    | some manifest =>
      simp only
      cases v.GetString kApplicationPath with
      | none => rfl
      | some path =>
        simp only
        cases v.GetDouble kInstallTime with
        | none => rfl
        | some install_time => exact runInTransactionTraced_result sql t _

/-- The traced `UpdateApplication` returns what `UpdateApplication` returns. -/
theorem UpdateApplicationTraced_result (sql : Sql) (json : Json) (t : Tables) (id : String)
    (value : Option Value) :
    (UpdateApplicationTraced sql json t id value).1 = UpdateApplication sql json t id value := by
  unfold UpdateApplicationTraced UpdateApplication
  cases value with
  | none => rfl
  | some v =>
    simp only
    cases (v.Get kManifestPath).bind json.Serialize with
    | none => rfl
    | some manifest =>
      simp only
      cases v.GetString kApplicationPath with
      | none => rfl
      | some path =>
        simp only
        cases v.GetDouble kInstallTime with
        | none => rfl
        | some install_time => exact runInTransactionTraced_result sql t _

/-- The traced `InsertEventsValue` returns what `InsertEventsValue` returns. -/
theorem InsertEventsValueTraced_result (sql : Sql) (t : Tables) (id : String)
    (value : Option Value) :
    (InsertEventsValueTraced sql t id value).1 = InsertEventsValue sql t id value := by
  unfold InsertEventsValueTraced InsertEventsValue
  cases value with
  | none => rfl
  | some events => exact runInTransactionTraced_result sql t _

/-- The traced `UpdateEventsValue` returns what `UpdateEventsValue` returns. -/
theorem UpdateEventsValueTraced_result (sql : Sql) (t : Tables) (id : String)
    (value : Option Value) :
    (UpdateEventsValueTraced sql t id value).1 = UpdateEventsValue sql t id value := by
  unfold UpdateEventsValueTraced UpdateEventsValue
  cases value with
  | none => rfl
  | some events => exact runInTransactionTraced_result sql t _

/-- The traced `Insert` returns what `Insert` returns. -/
theorem InsertTraced_result (sql : Sql) (json : Json) (s : DBStoreSqliteImpl) (key : String)
    (value : Option Value) :
    (InsertTraced sql json s key value).1 = Insert sql json s key value := by
  unfold InsertTraced Insert
  cases s.db_initialized
  · rfl
  · simp only [if_true]
    cases FormatKeys key with
    | nil => rfl
    | cons k0 rest =>
      cases rest with
      | nil => simp only [InsertApplicationTraced_result]
      | cons k1 rest2 =>
        cases rest2 with
        | nil =>
          simp only
          split
          · simp only [InsertEventsValueTraced_result]
          · rfl
        | cons k2 rest3 => rfl

/-- The traced `Update` returns what `Update` returns. -/
theorem UpdateTraced_result (sql : Sql) (json : Json) (s : DBStoreSqliteImpl) (key : String)
    (value : Option Value) :
    (UpdateTraced sql json s key value).1 = Update sql json s key value := by
  unfold UpdateTraced Update
  cases s.db_initialized
  · rfl
  · simp only [if_true]
    cases FormatKeys key with
    | nil => rfl
    | cons k0 rest =>
      cases rest with
      | nil => simp only [UpdateApplicationTraced_result]
      | cons k1 rest2 =>
        cases rest2 with
        | nil =>
          simp only
          split
          · simp only [UpdateEventsValueTraced_result]
          · rfl
        | cons k2 rest3 => rfl

/-- A writing function that reaches its transaction calls `Begin` first. -/
theorem runInTransactionTraced_begins (sql : Sql) (t : Tables)
    (stmt : Tables → Option Tables) :
    (runInTransactionTraced sql t stmt).2.head? = some SqlCall.Begin := by
  unfold runInTransactionTraced
  cases sql.Begin t
  · rfl
  · cases stmt t with
    | none => rfl
    | some t2 =>
      simp only [if_true]
      cases sql.Commit t2 <;> rfl

/-- Claim C9: for a single-segment key, when the value is null, or has no manifest entry,
or has no string path, or has no numeric install time, `Insert` and `Update` return false
and leave the state as it was, so that no row is written and no observer is called, and
they make no call at all on the connection: no transaction is begun and no statement is
run. The traced operations return what `Insert` and `Update` return on every input, and a
value that passes the checks does make them begin a transaction. -/
theorem C9_value_validated_first (sql : Sql) (json : Json) (s : DBStoreSqliteImpl)
    (key id : String) (value : Option Value) (hkey : FormatKeys key = [id])
    (hbad : value = none ∨ ∃ v, value = some v ∧
      (v.Get kManifestPath = none ∨ v.GetString kApplicationPath = none ∨
        v.GetDouble kInstallTime = none)) :
    Insert sql json s key value = (false, s) ∧ Update sql json s key value = (false, s) ∧
    InsertTraced sql json s key value = ((false, s), []) ∧
    UpdateTraced sql json s key value = ((false, s), []) ∧
    (∀ (s2 : DBStoreSqliteImpl) (key2 : String) (value2 : Option Value),
      (InsertTraced sql json s2 key2 value2).1 = Insert sql json s2 key2 value2 ∧
      (UpdateTraced sql json s2 key2 value2).1 = Update sql json s2 key2 value2) ∧
    (∀ (v m : Value) (text p : String) (tm : Rat), s.db_initialized = true →
      v.Get kManifestPath = some m → json.Serialize m = some text →
      v.GetString kApplicationPath = some p → v.GetDouble kInstallTime = some tm →
      (InsertTraced sql json s key (some v)).2.head? = some SqlCall.Begin ∧
      (UpdateTraced sql json s key (some v)).2.head? = some SqlCall.Begin) := by
  have hi : InsertApplicationTraced sql json s.tables id value = ((false, s.tables), []) := by
    rcases hbad with h | ⟨v, hv, h⟩
    · simp [InsertApplicationTraced, h]
    · subst hv
      rcases h with h | h | h
      · simp [InsertApplicationTraced, h]
      · simp only [InsertApplicationTraced, h]
        split <;> rfl
      · simp only [InsertApplicationTraced, h]
        split
        · rfl
        · split <;> rfl
  have hu : UpdateApplicationTraced sql json s.tables id value = ((false, s.tables), []) := by
    rcases hbad with h | ⟨v, hv, h⟩
    · simp [UpdateApplicationTraced, h]
    · subst hv
      rcases h with h | h | h
      · simp [UpdateApplicationTraced, h]
      · simp only [UpdateApplicationTraced, h]
        split <;> rfl
      · simp only [UpdateApplicationTraced, h]
        split
        · rfl
        · split <;> rfl
  have hit : InsertTraced sql json s key value = ((false, s), []) := by
    unfold InsertTraced
    split
    · simp [hkey, hi, finishWrite]
    · rfl
  have hut : UpdateTraced sql json s key value = ((false, s), []) := by
    unfold UpdateTraced
    split
    · simp [hkey, hu, finishWrite]
    · rfl
  refine ⟨?_, ?_, hit, hut, ?_, ?_⟩
  · rw [← InsertTraced_result, hit]
  · rw [← UpdateTraced_result, hut]
  · intro s2 key2 value2
    exact ⟨InsertTraced_result sql json s2 key2 value2,
      UpdateTraced_result sql json s2 key2 value2⟩
  · intro v m text p tm hinit hm hs hp ht
    constructor
    · simp [InsertTraced, hinit, hkey, InsertApplicationTraced, hm, hs, hp, ht,
        runInTransactionTraced_begins]
    · simp [UpdateTraced, hinit, hkey, UpdateApplicationTraced, hm, hs, hp, ht,
        runInTransactionTraced_begins]

/-- Witness of C9: a null value, and a record whose path is a number; the record of the
unit tests, which passes the checks, begins a transaction. -/
theorem C9_value_validated_first_witness :
    InsertTraced specSql testJson initStore "app1" none = ((false, initStore), []) ∧
    UpdateTraced specSql testJson storeWithApp1 "app1"
      (some (Value.dict
        [(kInstallTime, Value.double 0), (kManifestPath, Value.dict []),
          (kApplicationPath, Value.int 3)])) = ((false, storeWithApp1), []) ∧
    (InsertTraced specSql testJson initStore "app1" (some testRecord)).2
      = [SqlCall.Begin, SqlCall.Statement, SqlCall.Commit] :=
  ⟨(C9_value_validated_first specSql testJson initStore "app1" "app1" none (by decide)
      (Or.inl rfl)).2.2.1,
   (C9_value_validated_first specSql testJson storeWithApp1 "app1" "app1"
      (some (Value.dict
        [(kInstallTime, Value.double 0), (kManifestPath, Value.dict []),
          (kApplicationPath, Value.int 3)])) (by decide)
      (Or.inr ⟨_, rfl, Or.inr (Or.inl rfl)⟩)).2.2.2.1,
   by decide⟩

/-- Claim C23, amended: with the statements of the specification, when the legacy document
has the entries `pre`, each a record of a serializable manifest, a string path and a double
install time, then an entry whose insert fails, then `post`, an `InitDB` that reaches the
migration returns false, leaves the relational store file in place with one row for each
entry of `pre` and the legacy file untouched; a later `InitDB` by a new store object on the
same directory, in which every outside call succeeds, does not read the legacy file and
returns true; and when no id of `pre` contains a dot, `Query("")` then returns exactly the
entries of `pre`. -/
theorem C23_partial_migration_stays (json : Json) (env : InitEnv) (s : DBStoreSqliteImpl)
    (v0 : String) (pre post : List (String × Value)) (k : String) (v : Value)
    (hv0 : s.v0_file = some v0) (hdb : s.db_file = false)
    (hopen : env.Open = true) (hmeta : env.MetaTable = true) (htab : env.InitTables = true)
    (hde : json.Deserialize v0 = some (Value.dict (pre ++ (k, v) :: post)))
    (hdoc : LegacyDocument json pre)
    (hfail : (InsertApplication specSql json
      (upgradeLoop specSql json pre emptyTables).2 k (some v)).1 = false) :
    (InitDB specSql json env s).1 = false ∧
    (InitDB specSql json env s).2.db_file = true ∧
    (InitDB specSql json env s).2.v0_file = some v0 ∧
    (InitDB specSql json env s).2.tables.applications.map (fun r => r.id)
      = pre.map (fun e => e.1) ∧
    (InitDB specSql json okEnv
      (DBStoreSqliteImpl.create (InitDB specSql json env s).2.db_file
        (InitDB specSql json env s).2.tables (InitDB specSql json env s).2.v0_file)).1
      = true ∧
    (InitDB specSql json okEnv
      (DBStoreSqliteImpl.create (InitDB specSql json env s).2.db_file
        (InitDB specSql json env s).2.tables (InitDB specSql json env s).2.v0_file)).2.v0_reads
      = 0 ∧
    ((∀ e ∈ pre, '.' ∉ e.1.data) →
      (Query specSql json
        (InitDB specSql json okEnv
          (DBStoreSqliteImpl.create (InitDB specSql json env s).2.db_file
            (InitDB specSql json env s).2.tables (InitDB specSql json env s).2.v0_file)).2
        "").1 = some (Value.dict pre)) := by
  obtain ⟨rows, hloop, hall⟩ := upgradeLoop_document json pre emptyTables hdoc
    (by intro e _; rfl)
  rw [hloop] at hfail
  have hstop := upgradeLoop_stops specSql json k v post pre emptyTables _ hloop hfail
  have hup : UpgradeToVersion1 specSql json emptyTables v0 =
      (false, { emptyTables with applications := emptyTables.applications ++ rows }) := by
    simp only [UpgradeToVersion1, hde, Value.entries, hstop]
  have hinit : InitDB specSql json env s =
      (false, { s with
        db_file := true
        tables := { emptyTables with applications := emptyTables.applications ++ rows }
        v0_reads := s.v0_reads + 1 }) := by
    simp [InitDB, hopen, hmeta, htab, hv0, hdb, hup]
  have hids := rows_ids json rows pre hall
  rw [hinit]
  have hinit2 : InitDB specSql json okEnv
      (DBStoreSqliteImpl.create true
        { emptyTables with applications := emptyTables.applications ++ rows } s.v0_file) =
      (true, { DBStoreSqliteImpl.create true
        { emptyTables with applications := emptyTables.applications ++ rows } s.v0_file with
        db_initialized := true }) := by
    simp [InitDB, okEnv, DBStoreSqliteImpl.create, initFinish, hv0]
  simp only [hinit2]
  refine ⟨by trivial, by trivial, hv0, ?_, by trivial, by trivial, ?_⟩
  · simpa [emptyTables] using hids
  · intro hdot
    have hq := queryInstalledLoop_document json rows pre [] hall (by simpa using hdoc.1) hdot
    simp only [Query, FormatKeys_empty, DBStoreSqliteImpl.create, if_true,
      QueryInstalledApplications]
    have hrows : specSql.kGetInstalledApplicationsOp
        { emptyTables with applications := emptyTables.applications ++ rows } = some rows := by
      simp [specSql, emptyTables]
    rw [hrows]
    simpa using hq

/-- Witness of the amended C23: a legacy document of three entries whose second entry has
no path. -/
theorem C23_partial_migration_stays_witness :
    (InitDB specSql partialJson okEnv
      (DBStoreSqliteImpl.create false emptyTables
        (some "app1: (a:b, path, 0.0), app2: (a:b), app3: (a:b, path, 0.0)"))).1 = false ∧
    (Query specSql partialJson
      (InitDB specSql partialJson okEnv
        (DBStoreSqliteImpl.create
          (InitDB specSql partialJson okEnv
            (DBStoreSqliteImpl.create false emptyTables
              (some "app1: (a:b, path, 0.0), app2: (a:b), app3: (a:b, path, 0.0)"))).2.db_file
          (InitDB specSql partialJson okEnv
            (DBStoreSqliteImpl.create false emptyTables
              (some "app1: (a:b, path, 0.0), app2: (a:b), app3: (a:b, path, 0.0)"))).2.tables
          (InitDB specSql partialJson okEnv
            (DBStoreSqliteImpl.create false emptyTables
              (some "app1: (a:b, path, 0.0), app2: (a:b), app3: (a:b, path, 0.0)"))).2.v0_file)).2
      "").1 =
      some (Value.dict [("app1", record (Value.dict [("a", Value.string "b")]) "path" 0)]) :=
  have h := C23_partial_migration_stays partialJson okEnv
    (DBStoreSqliteImpl.create false emptyTables
      (some "app1: (a:b, path, 0.0), app2: (a:b), app3: (a:b, path, 0.0)"))
    "app1: (a:b, path, 0.0), app2: (a:b), app3: (a:b, path, 0.0)"
    [("app1", record (Value.dict [("a", Value.string "b")]) "path" 0)]
    [("app3", record (Value.dict [("a", Value.string "b")]) "path" 0)]
    "app2" (Value.dict [(kManifestPath, Value.dict [("a", Value.string "b")])])
    rfl rfl rfl rfl rfl rfl
    ⟨by simp, by
      intro e he
      simp only [List.mem_singleton] at he
      subst he
      exact ⟨Value.dict [("a", Value.string "b")], "path", 0, "a:b", rfl, rfl, rfl⟩⟩
    (by decide)
  ⟨h.1, h.2.2.2.2.2.2 (by
      intro e he
      simp only [List.mem_singleton] at he
      subst he
      decide)⟩

/-- Counterexample to C23 as stated: the legacy document holds the record of the unit test
under the id `a.b`, then the entry `c` without path. `InitDB` returns false and leaves the
row `a.b`; the next `InitDB` on the same directory returns true without reading the legacy
file; but `Query("")` returns a dictionary with the single key `a` holding a dictionary
with the key `b`, which is not the first entry of the document. -/
theorem C23_dotted_prefix_counterexample :
    dottedPartialJson.Deserialize "a.b: (a:b, path, 0.0), c: (a:b)" =
      some (Value.dict
        [("a.b", record (Value.dict [("a", Value.string "b")]) "path" 0),
         ("c", Value.dict [(kManifestPath, Value.dict [("a", Value.string "b")])])]) ∧
    (InsertApplication specSql dottedPartialJson
      (upgradeLoop specSql dottedPartialJson
        [("a.b", record (Value.dict [("a", Value.string "b")]) "path" 0)] emptyTables).2
      "c" (some (Value.dict [(kManifestPath, Value.dict [("a", Value.string "b")])]))).1
      = false ∧
    (InitDB specSql dottedPartialJson okEnv
      (DBStoreSqliteImpl.create false emptyTables
        (some "a.b: (a:b, path, 0.0), c: (a:b)"))).1 = false ∧
    (InitDB specSql dottedPartialJson okEnv
      (DBStoreSqliteImpl.create false emptyTables
        (some "a.b: (a:b, path, 0.0), c: (a:b)"))).2.tables.applications.map
          (fun r => r.id) = ["a.b"] ∧
    (InitDB specSql dottedPartialJson okEnv
      (DBStoreSqliteImpl.create true
        (InitDB specSql dottedPartialJson okEnv
          (DBStoreSqliteImpl.create false emptyTables
            (some "a.b: (a:b, path, 0.0), c: (a:b)"))).2.tables
        (some "a.b: (a:b, path, 0.0), c: (a:b)"))).1 = true ∧
    (Query specSql dottedPartialJson
      (InitDB specSql dottedPartialJson okEnv
        (DBStoreSqliteImpl.create true
          (InitDB specSql dottedPartialJson okEnv
            (DBStoreSqliteImpl.create false emptyTables
              (some "a.b: (a:b, path, 0.0), c: (a:b)"))).2.tables
          (some "a.b: (a:b, path, 0.0), c: (a:b)"))).2 "").1 =
      some (Value.dict
        [("a", Value.dict
          [("b", record (Value.dict [("a", Value.string "b")]) "path" 0)])]) ∧
    (Query specSql dottedPartialJson
      (InitDB specSql dottedPartialJson okEnv
        (DBStoreSqliteImpl.create true
          (InitDB specSql dottedPartialJson okEnv
            (DBStoreSqliteImpl.create false emptyTables
              (some "a.b: (a:b, path, 0.0), c: (a:b)"))).2.tables
          (some "a.b: (a:b, path, 0.0), c: (a:b)"))).2 "").1 ≠
      some (Value.dict [("a.b", record (Value.dict [("a", Value.string "b")]) "path" 0)]) := by
  have hq : (Query specSql dottedPartialJson
      (InitDB specSql dottedPartialJson okEnv
        (DBStoreSqliteImpl.create true
          (InitDB specSql dottedPartialJson okEnv
            (DBStoreSqliteImpl.create false emptyTables
              (some "a.b: (a:b, path, 0.0), c: (a:b)"))).2.tables
          (some "a.b: (a:b, path, 0.0), c: (a:b)"))).2 "").1 =
      some (Value.dict
        [("a", Value.dict
          [("b", record (Value.dict [("a", Value.string "b")]) "path" 0)])]) := rfl
  refine ⟨rfl, by decide, by decide, by decide, by decide, hq, ?_⟩
  rw [hq]
  intro h
  simp at h

end xwalk.application
